import Mathlib

/-!
Verification of the streaming text utilities (catr, headr, wcr, echor).

The Rust sources are shallowly embedded:
* a Rust `String` is modelled as `List Char`;
* a byte stream is a `List Nat` (each element < 256) followed by either
  end-of-file or a mid-stream I/O error (`Source.ioErr`);
* `BufRead::read_line` / `BufRead::lines` are modelled by splitting the byte
  stream into newline-terminated units (`lineUnits`) and decoding each unit
  with a strict UTF-8 decoder, exactly as the Rust standard library does;
* `String::from_utf8_lossy` is modelled by `utf8Lossy`, which replaces each
  maximal invalid subpart with U+FFFD.
-/

set_option maxRecDepth 4000

deriving instance DecidableEq for Except

namespace CmdLineRust

/-! ## UTF-8 decoding and encoding -/

/-- Is `b` a UTF-8 continuation byte (0x80–0xBF)? -/
def utf8Cont (b : Nat) : Bool := 0x80 ≤ b && b ≤ 0xBF

/-- Decode one UTF-8 scalar value: lead byte `b` plus its continuation bytes
taken from `bs`. Returns the character and the unconsumed remainder, or
`none` on any invalid sequence — overlong encodings, surrogates (`0xED`
limited to second bytes `0x80–0x9F`) and values above U+10FFFF (`0xF4`
limited to `0x80–0x8F`) are all rejected, exactly as `core::str::from_utf8`
does. -/
def utf8DecodeStep (b : Nat) (bs : List Nat) : Option (Char × List Nat) :=
  if b < 0x80 then some (Char.ofNat b, bs)
  else if 0xC2 ≤ b && b ≤ 0xDF then
    match bs with
    | c :: bs' =>
      if utf8Cont c then some (Char.ofNat ((b - 0xC0) * 64 + (c - 0x80)), bs')
      else none
    | [] => none
  else if 0xE0 ≤ b && b ≤ 0xEF then
    match bs with
    | c :: d :: bs' =>
      if (if b = 0xE0 then 0xA0 ≤ c && c ≤ 0xBF
          else if b = 0xED then 0x80 ≤ c && c ≤ 0x9F
          else utf8Cont c) && utf8Cont d then
        some (Char.ofNat ((b - 0xE0) * 4096 + (c - 0x80) * 64 + (d - 0x80)), bs')
      else none
    | _ => none
  else if 0xF0 ≤ b && b ≤ 0xF4 then
    match bs with
    | c :: d :: e :: bs' =>
      if (if b = 0xF0 then 0x90 ≤ c && c ≤ 0xBF
          else if b = 0xF4 then 0x80 ≤ c && c ≤ 0x8F
          else utf8Cont c) && utf8Cont d && utf8Cont e then
        some (Char.ofNat ((b - 0xF0) * 262144 + (c - 0x80) * 4096 +
                          (d - 0x80) * 64 + (e - 0x80)), bs')
      else none
    | _ => none
  else none

/-- The strict decoding loop, fuel-driven: each step consumes at least one
byte, so fuel equal to the byte count never runs out. -/
def utf8DecodeAux : Nat → List Nat → Option (List Char)
  | _, [] => some []
  | 0, _ :: _ => none
  | fuel + 1, b :: bs =>
    match utf8DecodeStep b bs with
    | some (ch, rest) => (utf8DecodeAux fuel rest).map (ch :: ·)
    | none => none

/-- Strict UTF-8 decoder, mirroring the validation performed by
`core::str::from_utf8` (used by `BufRead::read_line` / `lines`). -/
def utf8Decode? (bs : List Nat) : Option (List Char) := utf8DecodeAux bs.length bs

/-- One step of the lossy UTF-8 decoder (fuel-driven; each step consumes at
least one byte, so fuel equal to the byte count never runs out). -/
def utf8LossyAux : Nat → List Nat → List Char
  | 0, _ => []
  | _ + 1, [] => []
  | fuel + 1, b :: bs =>
    if b < 0x80 then
      Char.ofNat b :: utf8LossyAux fuel bs
    else if 0xC2 ≤ b && b ≤ 0xDF then
      match bs with
      | c :: bs' =>
        if utf8Cont c then
          Char.ofNat ((b - 0xC0) * 64 + (c - 0x80)) :: utf8LossyAux fuel bs'
        else Char.ofNat 0xFFFD :: utf8LossyAux fuel (c :: bs')
      | [] => [Char.ofNat 0xFFFD]
    else if 0xE0 ≤ b && b ≤ 0xEF then
      match bs with
      | c :: d :: bs' =>
        if if b = 0xE0 then 0xA0 ≤ c && c ≤ 0xBF
           else if b = 0xED then 0x80 ≤ c && c ≤ 0x9F
           else utf8Cont c then
          if utf8Cont d then
            Char.ofNat ((b - 0xE0) * 4096 + (c - 0x80) * 64 + (d - 0x80)) ::
              utf8LossyAux fuel bs'
          else Char.ofNat 0xFFFD :: utf8LossyAux fuel (d :: bs')
        else Char.ofNat 0xFFFD :: utf8LossyAux fuel (c :: d :: bs')
      | [c] =>
        if if b = 0xE0 then 0xA0 ≤ c && c ≤ 0xBF
           else if b = 0xED then 0x80 ≤ c && c ≤ 0x9F
           else utf8Cont c then [Char.ofNat 0xFFFD]
        else Char.ofNat 0xFFFD :: utf8LossyAux fuel [c]
      | [] => [Char.ofNat 0xFFFD]
    else if 0xF0 ≤ b && b ≤ 0xF4 then
      match bs with
      | c :: d :: e :: bs' =>
        if if b = 0xF0 then 0x90 ≤ c && c ≤ 0xBF
           else if b = 0xF4 then 0x80 ≤ c && c ≤ 0x8F
           else utf8Cont c then
          if utf8Cont d then
            if utf8Cont e then
              Char.ofNat ((b - 0xF0) * 262144 + (c - 0x80) * 4096 +
                          (d - 0x80) * 64 + (e - 0x80)) :: utf8LossyAux fuel bs'
            else Char.ofNat 0xFFFD :: utf8LossyAux fuel (e :: bs')
          else Char.ofNat 0xFFFD :: utf8LossyAux fuel (d :: e :: bs')
        else Char.ofNat 0xFFFD :: utf8LossyAux fuel (c :: d :: e :: bs')
      | [c, d] =>
        if if b = 0xF0 then 0x90 ≤ c && c ≤ 0xBF
           else if b = 0xF4 then 0x80 ≤ c && c ≤ 0x8F
           else utf8Cont c then
          if utf8Cont d then [Char.ofNat 0xFFFD]
          else Char.ofNat 0xFFFD :: utf8LossyAux fuel [d]
        else Char.ofNat 0xFFFD :: utf8LossyAux fuel [c, d]
      | [c] =>
        if if b = 0xF0 then 0x90 ≤ c && c ≤ 0xBF
           else if b = 0xF4 then 0x80 ≤ c && c ≤ 0x8F
           else utf8Cont c then [Char.ofNat 0xFFFD]
        else Char.ofNat 0xFFFD :: utf8LossyAux fuel [c]
      | [] => [Char.ofNat 0xFFFD]
    else Char.ofNat 0xFFFD :: utf8LossyAux fuel bs

/-- Lossy UTF-8 decoder, mirroring `String::from_utf8_lossy`: each maximal
invalid subpart is replaced by a single U+FFFD replacement character. -/
def utf8Lossy (bs : List Nat) : List Char := utf8LossyAux bs.length bs

/-- UTF-8 encoding of a single character. -/
def utf8EncodeChar (c : Char) : List Nat :=
  let v := c.toNat
  if v < 0x80 then [v]
  else if v < 0x800 then [0xC0 + v / 64, 0x80 + v % 64]
  else if v < 0x10000 then [0xE0 + v / 4096, 0x80 + v / 64 % 64, 0x80 + v % 64]
  else [0xF0 + v / 262144, 0x80 + v / 4096 % 64, 0x80 + v / 64 % 64, 0x80 + v % 64]

/-- UTF-8 encoding of a character sequence. -/
def utf8Encode (s : List Char) : List Nat := (s.map utf8EncodeChar).flatten

/-! ## Byte streams and line units -/

/-- An already-open readable byte stream: it yields `bytes` and then either a
clean end-of-file (`ioErr = false`) or a mid-stream I/O error (`ioErr = true`).
Once a read fails all three tools stop touching the stream, so placing the
error after all deliverable bytes is fully general. -/
structure Source where
  bytes : List Nat
  ioErr : Bool
deriving DecidableEq

/-- The kinds of mid-stream read failure `read_line` can report. -/
inductive ErrKind where
  | ioErr
  | invalidData
deriving DecidableEq

/-- Split a byte sequence into the units successively returned by
`BufRead::read_line`: each unit extends up to and including the next 0x0A
byte; a final unit without a terminator is the trailing run. -/
def lineUnits : List Nat → List (List Nat)
  | [] => []
  | b :: bs =>
    if b = 10 then [b] :: lineUnits bs
    else
      match lineUnits bs with
      | [] => [[b]]
      | u :: us => (b :: u) :: us

/-- Does the byte sequence end with a line feed? -/
def endsWithNl (bs : List Nat) : Bool := bs.getLast? = some 10

/-- The units actually delivered by repeated `read_line` calls on `s`, paired
with `true` when the loop then observes an I/O error rather than end-of-file.
When the stream errors out, a trailing unterminated unit is never delivered:
the read that would have produced it fails instead. -/
def readUnits (s : Source) : List (List Nat) × Bool :=
  let us := lineUnits s.bytes
  if s.ioErr then (if endsWithNl s.bytes then us else us.dropLast, true)
  else (us, false)

/-- A named command-line source: the name together with the result of `open`
(`.error cause` models a failed open carrying the OS error text). -/
abbrev NamedSrc := List Char × Except (List Char) Source

/-- Diagnostic text shown by `main` for a fatal mid-stream error (`{e}`); the
exact I/O error text is environment-supplied, so it is modelled abstractly. -/
def errMsg : ErrKind → List Char
  | .ioErr => "I/O error".data
  | .invalidData => "stream did not contain valid UTF-8".data

/-- The observable outcome of one tool invocation: everything written to
standard output, the lines written to standard error, and the exit code. -/
structure RunOut where
  out : List Char
  errs : List (List Char)
  code : Nat
deriving DecidableEq

/-! ## wcr (the Count tool) -/

namespace Wcr

/-- Per-source counts (`struct FileInfo`). -/
structure FileInfo where
  line_count : Nat := 0
  word_count : Nat := 0
  byte_count : Nat := 0
  char_count : Nat := 0
deriving DecidableEq

/-- The count-selection flags of `wcr` (`struct Args`, minus the file list). -/
structure Args where
  lines : Bool := false
  words : Bool := false
  bytes : Bool := false
  chars : Bool := false
deriving DecidableEq

/-- Unicode `char::is_whitespace` (the `White_Space` property), used by
`str::split_whitespace`. -/
def rustIsWhitespace (c : Char) : Bool :=
  c.toNat ∈ [0x09, 0x0A, 0x0B, 0x0C, 0x0D, 0x20, 0x85, 0xA0, 0x1680,
    0x2000, 0x2001, 0x2002, 0x2003, 0x2004, 0x2005, 0x2006, 0x2007,
    0x2008, 0x2009, 0x200A, 0x2028, 0x2029, 0x202F, 0x205F, 0x3000]

/-- Model of `str::split_whitespace`: the non-empty pieces obtained by
treating every whitespace character as a separator. -/
def splitWhitespaceList : List Char → List (List Char)
  | [] => []
  | c :: cs =>
    if rustIsWhitespace c then splitWhitespaceList cs
    else
      match cs with
      | [] => [[c]]
      | d :: _ =>
        if rustIsWhitespace d then [c] :: splitWhitespaceList cs
        else
          match splitWhitespaceList cs with
          | [] => [[c]]
          | p :: ps => (c :: p) :: ps

/-- One `counter` loop iteration's bookkeeping for a delivered line unit `u`
decoded as `s`. -/
def bump (fi : FileInfo) (u : List Nat) (s : List Char) : FileInfo :=
  { line_count := fi.line_count + 1
    byte_count := fi.byte_count + u.length
    word_count := fi.word_count + (splitWhitespaceList s).length
    char_count := fi.char_count + s.length }

/-- The `while let Ok(num_bytes) = filename.read_line(&mut line)` loop of
`counter`: a zero-byte read (end of file) breaks out of the loop, and — because
the loop pattern only matches `Ok` — any `Err` (I/O error, or invalid UTF-8)
silently exits the loop with the counts accumulated so far. -/
def counterLoop (fi : FileInfo) : List (List Nat) → Bool → FileInfo
  | [], _ => fi
  | u :: us, ioe =>
    match utf8Decode? u with
    | none => fi
    | some s => counterLoop (bump fi u s) us ioe

/-- `counter`: always returns `Ok` with whatever was counted before the stream
ended or failed. -/
def counter (src : Source) : Except ErrKind FileInfo :=
  let (us, ioe) := readUnits src
  .ok (counterLoop {} us ioe)

/-- `format_output`: one numeric field, right-aligned to (at least) 8
characters, or nothing when its kind is not selected. -/
def format_output (count : Nat) (sh : Bool) : List Char :=
  if sh then List.replicate (8 - (Nat.repr count).length) ' ' ++ (Nat.repr count).data
  else []

/-- The per-file output line printed by `run`. -/
def fileLine (a : Args) (c : FileInfo) (name : List Char) : List Char :=
  format_output c.line_count a.lines ++ format_output c.word_count a.words ++
  format_output c.byte_count a.bytes ++ format_output c.char_count a.chars ++
  (if name = "-".data then [] else ' ' :: name)

/-- The totals line printed by `run` when more than one file was named. -/
def totalLine (a : Args) (t : FileInfo) : List Char :=
  format_output t.line_count a.lines ++ format_output t.word_count a.words ++
  format_output t.byte_count a.bytes ++ format_output t.char_count a.chars ++
  " total".data

/-- Elementwise sum of two `FileInfo`s (the `totals.* += ...` updates). -/
def addInfo (t c : FileInfo) : FileInfo :=
  { line_count := t.line_count + c.line_count
    word_count := t.word_count + c.word_count
    byte_count := t.byte_count + c.byte_count
    char_count := t.char_count + c.char_count }

/-- The default rule at the top of `run`: with no flags chosen, show lines,
words and bytes. -/
def defaultize (a : Args) : Args :=
  if a.lines = false ∧ a.words = false ∧ a.bytes = false ∧ a.chars = false then
    { lines := true, words := true, bytes := true, chars := false }
  else a

/-- The per-file loop of `run`: open failures are reported and skipped; an
`Err` from `counter` would propagate (the `?`), though `counter` never
produces one. Returns (stdout lines, stderr lines, totals, fatal error). -/
def runLoop (a : Args) (t : FileInfo) :
    List NamedSrc → List (List Char) × List (List Char) × FileInfo × Option ErrKind
  | [] => ([], [], t, none)
  | (name, .error cause) :: rest =>
    let (os, es, t', e) := runLoop a t rest
    (os, (name ++ ": ".data ++ cause) :: es, t', e)
  | (name, .ok src) :: rest =>
    match counter src with
    | .error e => ([], [], t, some e)
    | .ok cc =>
      let (os, es, t', e) := runLoop a (addInfo t cc) rest
      (fileLine a cc name :: os, es, t', e)

/-- `run`: the loop over all named sources plus the final totals line. -/
def run (a : Args) (srcs : List NamedSrc) :
    List (List Char) × List (List Char) × Option ErrKind :=
  let a := defaultize a
  let (os, es, t, e) := runLoop a {} srcs
  match e with
  | some e => (os, es, some e)
  | none => (os ++ (if srcs.length > 1 then [totalLine a t] else []), es, none)

/-- `main`: flatten stdout lines, print a fatal error (if any) and exit 1,
else exit 0. -/
def wcrMain (a : Args) (srcs : List NamedSrc) : RunOut :=
  let (os, es, e) := run a srcs
  { out := (os.map (· ++ ['\n'])).flatten
    errs := es ++ (match e with | some e => [errMsg e] | none => [])
    code := match e with | some _ => 1 | none => 0 }

end Wcr

/-! ## catr (the Display tool) -/

namespace Catr

/-- One lowercase hexadecimal digit. -/
def hexDigit (n : Nat) : Char := if n < 10 then Char.ofNat (48 + n) else Char.ofNat (87 + n)

/-- Lowercase hexadecimal rendering without leading zeros, as produced by
`char::escape_unicode` (character code points need at most 6 digits). -/
def natHex (n : Nat) : List Char :=
  let ds := [n / 1048576 % 16, n / 65536 % 16, n / 4096 % 16, n / 256 % 16,
             n / 16 % 16, n % 16]
  let t := ds.dropWhile (· == 0)
  (if t.isEmpty then [0] else t).map hexDigit

/-- Rust `char::escape_default`: `\t`, `\r`, `\n`, backslash and both quotes
get two-character escapes, printable ASCII passes through, and everything else
becomes `\u\x7b…\x7d` with lowercase hex digits and no leading zeros. -/
def escapeDefault (c : Char) : List Char :=
  if c = '\t' then ['\\', 't']
  else if c = '\r' then ['\\', 'r']
  else if c = '\n' then ['\\', 'n']
  else if c = '\\' then ['\\', '\\']
  else if c = Char.ofNat 39 then ['\\', Char.ofNat 39]
  else if c = Char.ofNat 34 then ['\\', Char.ofNat 34]
  else if 0x20 ≤ c.toNat ∧ c.toNat ≤ 0x7E then [c]
  else ['\\', 'u', Char.ofNat 0x7B] ++ natHex c.toNat ++ [Char.ofNat 0x7D]

/-- The `caret_encoding` HashMap of `show_nonprinting_chars`, key for key: the
first key was written `"\u{00}"` in the source and is therefore the actual NUL
character, while every other key was written with a doubled backslash
(`"\\u{01}"` etc.) and is therefore the six-character literal text. -/
def caretMap : List (List Char × List Char) :=
  [("\x00".data, "^@".data),
   ("\\u\x7b01\x7d".data, "^A".data), ("\\u\x7b02\x7d".data, "^B".data),
   ("\\u\x7b03\x7d".data, "^C".data), ("\\u\x7b04\x7d".data, "^D".data),
   ("\\u\x7b05\x7d".data, "^E".data), ("\\u\x7b06\x7d".data, "^F".data),
   ("\\u\x7b07\x7d".data, "^G".data), ("\\u\x7b08\x7d".data, "^H".data),
   ("\\u\x7b0b\x7d".data, "^K".data), ("\\u\x7b0c\x7d".data, "^L".data),
   ("\\u\x7b0d\x7d".data, "^M".data), ("\\u\x7b0e\x7d".data, "^N".data),
   ("\\u\x7b0f\x7d".data, "^O".data), ("\\u\x7b10\x7d".data, "^P".data),
   ("\\u\x7b11\x7d".data, "^Q".data), ("\\u\x7b12\x7d".data, "^R".data),
   ("\\u\x7b13\x7d".data, "^S".data), ("\\u\x7b14\x7d".data, "^T".data),
   ("\\u\x7b15\x7d".data, "^U".data), ("\\u\x7b16\x7d".data, "^V".data),
   ("\\u\x7b17\x7d".data, "^W".data), ("\\u\x7b18\x7d".data, "^X".data),
   ("\\u\x7b19\x7d".data, "^Y".data), ("\\u\x7b1a\x7d".data, "^Z".data),
   ("\\u\x7b1b\x7d".data, "^[".data), ("\\u\x7b1c\x7d".data, "^\\".data),
   ("\\u\x7b1d\x7d".data, "^]".data), ("\\u\x7b1e\x7d".data, "^^".data),
   ("\\u\x7b1f\x7d".data, "^_".data), ("\\u\x7b7f\x7d".data, "^?".data)]

/-- Rust `str::replace` with a `char` pattern: every occurrence of `c` is
replaced by `v`. -/
def charReplace (c : Char) (v : List Char) : List Char → List Char
  | [] => []
  | d :: ds => (if d = c then v else [d]) ++ charReplace c v ds

/-- `show_nonprinting_chars`: for each character of the original line, look up
its `escape_default` text in the caret map and, on a hit, replace all its
occurrences in the accumulated string. -/
def show_nonprinting_chars (line : List Char) : List Char :=
  line.foldl (fun converted c =>
    match List.lookup (escapeDefault c) caretMap with
    | some v => charReplace c v converted
    | none => converted) line

/-- The display options of `catr` (`struct Args`, minus the file list). -/
structure Args where
  show_all : Bool := false
  number_nonblank_lines : Bool := false
  show_nonprint_ends : Bool := false
  show_ends : Bool := false
  number_lines : Bool := false
  squeeze_blank : Bool := false
  show_nonprint_tabs : Bool := false
  show_tabs : Bool := false
  show_nonprinting : Bool := false
deriving DecidableEq

/-- The flag expansion at the top of `run` (`-A`, `-e`, `-t`). -/
def expandArgs (a : Args) : Args :=
  let a := if a.show_all then
    { a with show_nonprinting := true, show_ends := true, show_tabs := true } else a
  let a := if a.show_nonprint_ends then
    { a with show_nonprinting := true, show_ends := true } else a
  if a.show_nonprint_tabs then
    { a with show_nonprinting := true, show_tabs := true } else a

/-- The trimming performed by `BufRead::lines`: a final line feed is removed,
and a carriage return is removed only when it preceded that line feed. -/
def stripLineEnd (s : List Char) : List Char :=
  if s.getLast? = some '\n' then
    let t := s.dropLast
    if t.getLast? = some '\r' then t.dropLast else t
  else s

/-- The body of `catr`'s per-line loop, from a state of (last-line-was-blank
flag, line-number counter): tab replacement, caret encoding, squeeze-blank
suppression (`continue`, leaving the state untouched), numbering, and the
`$` end marker. Returns the printed line, if any, and the new state. -/
def lineStep (a : Args) (st : Bool × Nat) (line0 : List Char) :
    Option (List Char) × (Bool × Nat) :=
  let line1 := if a.show_tabs then charReplace '\t' "^I".data line0 else line0
  let line := if a.show_nonprinting then show_nonprinting_chars line1 else line1
  if a.squeeze_blank ∧ line.isEmpty ∧ st.1 then (none, st)
  else
    let (pre, cnt) :=
      if a.number_lines ∨ (a.number_nonblank_lines ∧ ¬line.isEmpty) then
        (List.replicate (6 - (Nat.repr st.2).length) ' ' ++ (Nat.repr st.2).data ++ ['\t'],
         st.2 + 1)
      else ([], st.2)
    (some (pre ++ line ++ (if a.show_ends then "$".data else [])), (line.isEmpty, cnt))

/-- The per-source line loop, threading the (blank, counter) state. -/
def sourceLoop (a : Args) : Bool × Nat → List (List Char) →
    List (List Char) × (Bool × Nat)
  | st, [] => ([], st)
  | st, l :: ls =>
    match lineStep a st l with
    | (none, st') => sourceLoop a st' ls
    | (some o, st') =>
      let (os, st'') := sourceLoop a st' ls
      (o :: os, st'')

/-- Processing one source's decoded lines: the line-number counter starts at 1
for each source, while the blank flag is inherited from the previous source. -/
def processSource (a : Args) (lb : Bool) (ls : List (List Char)) :
    List (List Char) × Bool :=
  let (os, st) := sourceLoop a (lb, 1) ls
  (os, st.1)

/-- The `source.lines()` iterator over the delivered units: each unit is
decoded (failing with `InvalidData` on invalid UTF-8, which `line?` turns into
an abort) and trimmed; after the last unit the loop sees end-of-file or the
stream's I/O error. Returns the lines delivered before any failure, and the
failure. -/
def linesOf : List (List Nat) → Bool → List (List Char) × Option ErrKind
  | [], ioe => ([], if ioe then some .ioErr else none)
  | u :: us, ioe =>
    match utf8Decode? u with
    | none => ([], some .invalidData)
    | some s =>
      let (ls, e) := linesOf us ioe
      (stripLineEnd s :: ls, e)

/-- The lines `source.lines()` yields for a whole source. -/
def sourceLines (src : Source) : List (List Char) × Option ErrKind :=
  let (us, ioe) := readUnits src
  linesOf us ioe

/-- The per-file loop of `run`: a failed open prints
`Failed to open <name>: <cause>` and continues; a mid-stream failure aborts
the whole invocation after the lines already printed. Returns (stdout lines,
stderr lines, final blank flag, fatal error). -/
def runLoop (a : Args) (lb : Bool) :
    List NamedSrc → List (List Char) × List (List Char) × Bool × Option ErrKind
  | [] => ([], [], lb, none)
  | (name, .error cause) :: rest =>
    let (os, es, lb', e) := runLoop a lb rest
    (os, ("Failed to open ".data ++ name ++ ": ".data ++ cause) :: es, lb', e)
  | (_, .ok src) :: rest =>
    let (ls, e) := sourceLines src
    let (os, lb') := processSource a lb ls
    match e with
    | some e => (os, [], lb', some e)
    | none =>
      let (os', es', lb'', e') := runLoop a lb' rest
      (os ++ os', es', lb'', e')

/-- `run` for `catr`, including the flag expansion. -/
def run (a : Args) (srcs : List NamedSrc) :
    List (List Char) × List (List Char) × Option ErrKind :=
  let a := expandArgs a
  let (os, es, _, e) := runLoop a false srcs
  (os, es, e)

/-- `main` for `catr`. -/
def catrMain (a : Args) (srcs : List NamedSrc) : RunOut :=
  let (os, es, e) := run a srcs
  { out := (os.map (· ++ ['\n'])).flatten
    errs := es ++ (match e with | some e => [errMsg e] | none => [])
    code := match e with | some _ => 1 | none => 0 }

/-- The line-level run: the processing `catr` applies to the decoded lines of
a list of fault-free sources, with the blank flag threaded across sources. -/
def linesRun (a : Args) (lb : Bool) : List (List (List Char)) → List (List Char) × Bool
  | [] => ([], lb)
  | ls :: rest =>
    let (os, lb') := processSource a lb ls
    let (os', lb'') := linesRun a lb' rest
    (os ++ os', lb'')

end Catr

/-! ## headr (the Head tool) -/

namespace Headr

/-- The truncation configuration of `headr` (`struct Args`, minus the file
list): `lines` defaults to 10 and `bytes`, when given, takes precedence;
`clap` enforces both to be at least 1. -/
structure Args where
  lines : Nat := 10
  bytes : Option Nat := none
deriving DecidableEq

/-- A single bounded `read` into a buffer of size `n`: for a regular stream it
returns the first `min n (length)` available bytes; it fails only when no byte
is available and the stream is in error. -/
def readOnce (n : Nat) (src : Source) : Except ErrKind (List Nat) :=
  if src.bytes.isEmpty && src.ioErr then .error .ioErr else .ok (src.bytes.take n)

/-- The line-mode loop: up to `n` `read_line` calls, each printing the raw
unit (terminator preserved); a zero read breaks, an `Err` aborts after the
output already printed. -/
def lineLoop : Nat → List (List Nat) → Bool → List Char × Option ErrKind
  | 0, _, _ => ([], none)
  | _ + 1, [], ioe => ([], if ioe then some .ioErr else none)
  | n + 1, u :: us, ioe =>
    match utf8Decode? u with
    | none => ([], some .invalidData)
    | some s =>
      let (o, e) := lineLoop n us ioe
      (s ++ o, e)

/-- The output of one opened source's body (no header), with any fatal
mid-stream error. -/
def body (a : Args) (src : Source) : List Char × Option ErrKind :=
  match a.bytes with
  | some n =>
    match readOnce n src with
    | .error e => ([], some e)
    | .ok bs => (utf8Lossy bs, none)
  | none =>
    let (us, ioe) := readUnits src
    lineLoop a.lines us ioe

/-- The `==> name <==` header: printed only when more than one file was named,
and preceded by a blank line for every file but the first (by its position
`i` in the argument list). -/
def header (total i : Nat) (name : List Char) : List Char :=
  if total > 1 then
    (if i > 0 then ['\n'] else []) ++ "==> ".data ++ name ++ " <==\n".data
  else []

/-- The per-file loop of `run`, carrying the position `i` (`file_count`) and
the total number of named files: a failed open prints `<name>: <cause>` and
moves on; a fatal body error stops the whole run. -/
def runLoop (a : Args) (total : Nat) :
    Nat → List NamedSrc → List Char × List (List Char) × Option ErrKind
  | _, [] => ([], [], none)
  | i, (name, .error cause) :: rest =>
    let (o, es, e) := runLoop a total (i + 1) rest
    (o, (name ++ ": ".data ++ cause) :: es, e)
  | i, (name, .ok src) :: rest =>
    let (b, e) := body a src
    match e with
    | some e => (header total i name ++ b, [], some e)
    | none =>
      let (o, es, e') := runLoop a total (i + 1) rest
      (header total i name ++ b ++ o, es, e')

/-- `run` for `headr`. -/
def run (a : Args) (srcs : List NamedSrc) :
    List Char × List (List Char) × Option ErrKind :=
  runLoop a srcs.length 0 srcs

/-- `main` for `headr`. -/
def headrMain (a : Args) (srcs : List NamedSrc) : RunOut :=
  let (o, es, e) := run a srcs
  { out := o
    errs := es ++ (match e with | some e => [errMsg e] | none => [])
    code := match e with | some _ => 1 | none => 0 }

end Headr

/-- Spec-side definition for C8, following the spec's words: the number of
maximal non-whitespace runs, counted as the positions where a non-whitespace
character follows the start of the line or a whitespace character. The flag
records whether the previous position was such a boundary. -/
def specMaxRunCount : Bool → List Char → Nat
  | _, [] => 0
  | prevWs, c :: cs =>
    (if ¬Wcr.rustIsWhitespace c ∧ prevWs then 1 else 0) +
      specMaxRunCount (Wcr.rustIsWhitespace c) cs

/-- The Display configuration with only blank-line squeezing active. -/
def sqArgs : Catr.Args := { squeeze_blank := true }

/-- Decode every line unit strictly; `some` exactly when the whole content is
valid UTF-8 unit by unit. -/
def decodeUnits? : List (List Nat) → Option (List (List Char))
  | [] => some []
  | u :: us =>
    match utf8Decode? u, decodeUnits? us with
    | some s, some ss => some (s :: ss)
    | _, _ => none

/-- The counts `counter` returns for a source. -/
def counterVal (src : Source) : Wcr.FileInfo :=
  Wcr.counterLoop {} (readUnits src).1 (readUnits src).2

/-- The diagnostics printed for the failed opens of a source list, in order,
each `prefixTxt ++ name ++ ": " ++ cause`. -/
def openFailures (prefixTxt : List Char) (srcs : List NamedSrc) : List (List Char) :=
  srcs.filterMap fun s =>
    match s.2 with
    | .error cause => some (prefixTxt ++ s.1 ++ ": ".data ++ cause)
    | .ok _ => none

/-- The per-file output lines of `wcr` for the successfully opened sources,
in order. -/
def wcrExpectedLines (a : Wcr.Args) (srcs : List NamedSrc) : List (List Char) :=
  srcs.filterMap fun s =>
    match s.2 with
    | .ok src => some (Wcr.fileLine a (counterVal src) s.1)
    | .error _ => none

/-- The grand totals over the successfully opened sources. -/
def sumCounts (t : Wcr.FileInfo) (srcs : List NamedSrc) : Wcr.FileInfo :=
  srcs.foldl (fun t s =>
    match s.2 with
    | .ok src => Wcr.addInfo t (counterVal src)
    | .error _ => t) t

/-- A named source that will not cause a mid-stream abort: either its open
fails outright, or its stream reaches a clean end-of-file and its content
decodes line by line. -/
def goodSrc : NamedSrc → Bool
  | (_, .error _) => true
  | (_, .ok src) => !src.ioErr && (decodeUnits? (lineUnits src.bytes)).isSome

/-- All sources in the list are fault-free in the sense of `goodSrc`. -/
def goodSrcs (srcs : List NamedSrc) : Bool := srcs.all goodSrc

/-- The output block of one successfully opened source of `headr`: the
header (whose leading blank line depends only on the position `i`) followed
by the body. -/
def headrBlock (ar : Headr.Args) (total i : Nat) (nm : List Char) (src : Source) :
    List Char :=
  Headr.header total i nm ++ (Headr.body ar src).1

/-- The expected stdout of `headr` from position `i` on: one block per
successfully opened source, indexed by position in the argument list. -/
def headrExpectedOut (ar : Headr.Args) (total : Nat) :
    Nat → List NamedSrc → List Char
  | _, [] => []
  | i, (_, .error _) :: rest => headrExpectedOut ar total (i + 1) rest
  | i, (nm, .ok src) :: rest =>
    headrBlock ar total i nm src ++ headrExpectedOut ar total (i + 1) rest

/-- The decoded, trimmed line lists of the successfully opened sources, in
order (failed opens contribute nothing). -/
def decodedList (srcs : List NamedSrc) : List (List (List Char)) :=
  srcs.filterMap fun s =>
    match s.2 with
    | .ok src => some (Catr.sourceLines src).1
    | .error _ => none

/-- Spec-side formatting for C7: one value right-aligned in an 8-character
field. -/
def specWcField (v : Nat) : List Char :=
  List.replicate (8 - (Nat.repr v).length) ' ' ++ (Nat.repr v).data

/-- Spec-side formatting for C7: the active kinds in the fixed order lines,
words, bytes, characters, each right-aligned to 8 characters, with no
separator between fields. -/
def specWcFields (a : Wcr.Args) (c : Wcr.FileInfo) : List Char :=
  (([(a.lines, c.line_count), (a.words, c.word_count),
     (a.bytes, c.byte_count), (a.chars, c.char_count)].filterMap
      fun p => if p.1 then some (specWcField p.2) else none)).flatten

/-- Spec-side formatting for C7: a space and the source name follow the
fields unless the source is standard input. -/
def specWcLine (a : Wcr.Args) (c : Wcr.FileInfo) (name : List Char) : List Char :=
  specWcFields a c ++ (if name = "-".data then [] else ' ' :: name)

/-- Spec-side formatting for C7: the totals line carries the literal label
`total`. -/
def specWcTotal (a : Wcr.Args) (t : Wcr.FileInfo) : List Char :=
  specWcFields a t ++ " total".data

/-- Spec-side definition for C9 ("byte-for-byte except line-terminator
normalization"): replace every CRLF pair by LF. -/
def crlfReplace : List Nat → List Nat
  | [] => []
  | [b] => [b]
  | b :: c :: bs =>
    if b = 13 ∧ c = 10 then 10 :: crlfReplace bs
    else b :: crlfReplace (c :: bs)

/-- Spec-side definition for C9: terminate the final line if the (non-empty)
content does not already end in a line feed. -/
def ensureNl (t : List Nat) : List Nat :=
  if t = [] then [] else if t.getLast? = some 10 then t else t ++ [10]

/-- Spec-side definition for C9, following the spec's words: the source
reproduced byte for byte except that line terminators are normalized —
CRLF becomes LF and the final line gains a terminator. -/
def specNormalizeBytes (bs : List Nat) : List Nat := ensureNl (crlfReplace bs)

/-! ## Claim theorems -/

/-- C1. The claim says a mid-stream read error aborts the whole invocation
with a non-zero status and, in particular, that the Count tool never reports
partial counts from a failed stream. The Count tool violates this: `counter`'s
`while let Ok(num_bytes) = filename.read_line(&mut line)` pattern silently
exits the loop on `Err` and returns `Ok` with the counts accumulated so far.
On a stream that delivers `"a\n"` and then fails, `wcr` prints the partial
counts line `       1       1       2 f` and exits 0. (`catr` and `headr`
propagate the error with `?` as the claim describes; `counter`'s `Result`
return type and the `counter(current_file)?` call site show the same intent,
making the swallowed error a slip in the code.) -/
theorem wcr_reports_partial_counts_after_read_error :
    Wcr.counter ⟨[97, 10], true⟩ =
      .ok { line_count := 1, word_count := 1, byte_count := 2, char_count := 2 } ∧
    Wcr.wcrMain {} [("f".data, .ok ⟨[97, 10], true⟩)] =
      { out := "       1       1       2 f\n".data, errs := [], code := 0 } := by
  decide

/-- C2 counterexample. The claim says Head, Count and Display never fail
solely because of non-UTF-8 content. The Display tool does fail: its
`lines()` iterator returns an `InvalidData` error on the single byte 0xFF,
`line?` propagates it, and the invocation exits 1 — no placeholder character
is substituted. -/
theorem catr_fails_on_invalid_utf8_content :
    Catr.catrMain {} [("f".data, .ok ⟨[0xFF], false⟩)] =
      { out := [], errs := [errMsg .invalidData], code := 1 } := by
  decide

/-- C3. The claim says every control character in {0x00–0x08, 0x0B–0x1F,
0x7F} is caret-encoded. The code intends this (its doc comment and its
32-entry map say so) but misses most of the set: the map keys were written as
the literal texts `\u{01}` … `\u{1f}`, `\u{7f}` (with a leading zero for
code points below 0x10), while `char::escape_default` produces hex without
leading zeros (`\u{1}`), so bytes 0x00–0x08 and 0x0B–0x0F never match and are
passed through unchanged; only 0x10–0x1F and 0x7F are encoded. In particular
0x01 is NOT rendered as `^A`, contradicting the claim's own example. (The
`\u{00}` key is the actual NUL character, which never equals any
`escape_default` text, so NUL also passes through.) -/
theorem show_nonprinting_skips_low_controls :
    Catr.show_nonprinting_chars [Char.ofNat 0x01] = [Char.ofNat 0x01] ∧
    Catr.show_nonprinting_chars [Char.ofNat 0x00] = [Char.ofNat 0x00] ∧
    Catr.show_nonprinting_chars [Char.ofNat 0x0B] = [Char.ofNat 0x0B] ∧
    Catr.show_nonprinting_chars [Char.ofNat 0x10] = "^P".data ∧
    Catr.show_nonprinting_chars [Char.ofNat 0x1F] = "^_".data ∧
    Catr.show_nonprinting_chars [Char.ofNat 0x7F] = "^?".data ∧
    (Catr.catrMain { show_nonprinting := true }
        [("f".data, .ok ⟨[0x01, 10], false⟩)]).out = [Char.ofNat 0x01, '\n'] := by
  decide

theorem specMaxRunCount_ws_head (b : Bool) (d : Char) (r : List Char)
    (h : Wcr.rustIsWhitespace d) :
    specMaxRunCount b (d :: r) = specMaxRunCount true (d :: r) := by
  simp [specMaxRunCount, h]

theorem specMaxRunCount_true_head (d : Char) (r : List Char)
    (h : ¬Wcr.rustIsWhitespace d) :
    specMaxRunCount true (d :: r) = 1 + specMaxRunCount false (d :: r) := by
  simp [specMaxRunCount, h]

theorem splitWhitespaceList_cons_ws (c : Char) (cs : List Char)
    (h : Wcr.rustIsWhitespace c) :
    Wcr.splitWhitespaceList (c :: cs) = Wcr.splitWhitespaceList cs := by
  rw [Wcr.splitWhitespaceList.eq_def]; simp [h]

theorem splitWhitespaceList_singleton (c : Char) (h : ¬Wcr.rustIsWhitespace c) :
    Wcr.splitWhitespaceList [c] = [[c]] := by
  rw [Wcr.splitWhitespaceList.eq_def]; simp [h]

theorem splitWhitespaceList_cons_break (c d : Char) (r : List Char)
    (h : ¬Wcr.rustIsWhitespace c) (hd : Wcr.rustIsWhitespace d) :
    Wcr.splitWhitespaceList (c :: d :: r) = [c] :: Wcr.splitWhitespaceList (d :: r) := by
  rw [Wcr.splitWhitespaceList.eq_def]; simp [h, hd]

theorem splitWhitespaceList_cons_glue (c d : Char) (r : List Char)
    (h : ¬Wcr.rustIsWhitespace c) (hd : ¬Wcr.rustIsWhitespace d) :
    Wcr.splitWhitespaceList (c :: d :: r) =
      match Wcr.splitWhitespaceList (d :: r) with
      | [] => [[c]]
      | p :: ps => (c :: p) :: ps := by
  rw [Wcr.splitWhitespaceList.eq_def]; simp [h, hd]

theorem splitWhitespaceList_ne_nil (c : Char) (cs : List Char)
    (h : ¬Wcr.rustIsWhitespace c) : Wcr.splitWhitespaceList (c :: cs) ≠ [] := by
  match cs with
  | [] => rw [splitWhitespaceList_singleton c h]; simp
  | d :: r =>
    by_cases hd : Wcr.rustIsWhitespace d
    · rw [splitWhitespaceList_cons_break c d r h hd]; simp
    · rw [splitWhitespaceList_cons_glue c d r h hd]
      match Wcr.splitWhitespaceList (d :: r) with
      | [] => simp
      | p :: ps => simp

theorem splitWhitespaceList_length (s : List Char) :
    (Wcr.splitWhitespaceList s).length = specMaxRunCount true s := by
  induction s with
  | nil => rfl
  | cons c cs ih =>
    by_cases hc : Wcr.rustIsWhitespace c
    · rw [splitWhitespaceList_cons_ws c cs hc, ih, specMaxRunCount]
      simp [hc]
    · match cs with
      | [] =>
        rw [splitWhitespaceList_singleton c hc]
        simp [specMaxRunCount, hc]
      | d :: r =>
        have hc' : Wcr.rustIsWhitespace c = false := by simpa using hc
        by_cases hd : Wcr.rustIsWhitespace d
        · rw [splitWhitespaceList_cons_break c d r hc hd, specMaxRunCount, hc']
          simp only [List.length_cons, ih]
          rw [specMaxRunCount_ws_head false d r hd]
          simp [Nat.add_comm]
        · rw [splitWhitespaceList_cons_glue c d r hc hd]
          match hh : Wcr.splitWhitespaceList (d :: r) with
          | [] => exact absurd hh (splitWhitespaceList_ne_nil d r hd)
          | p :: ps =>
            rw [specMaxRunCount, hc']
            simp only [List.length_cons]
            have h2 := ih
            rw [hh, specMaxRunCount_true_head d r hd] at h2
            simp only [List.length_cons] at h2
            simp only [Bool.false_eq_true, not_false_eq_true, true_and, if_true]
            omega

theorem splitWhitespaceList_all_ws (s : List Char)
    (h : ∀ c ∈ s, Wcr.rustIsWhitespace c) : Wcr.splitWhitespaceList s = [] := by
  induction s with
  | nil => rfl
  | cons c cs ih =>
    rw [splitWhitespaceList_cons_ws c cs (h c (by simp))]
    exact ih fun d hd => h d (by simp [hd])

/-- C8. The Count tool's per-line word count — the length of
`line.split_whitespace().count()`'s result, as accumulated by `counter` via
`bump` — equals the number of maximal non-whitespace runs of the line, where
any whitespace character (space, tab, newline, and the rest of the Unicode
`White_Space` set) acts as a separator; a line of only whitespace yields 0,
and `"a  b\tc"` yields 3. -/
theorem word_count_counts_maximal_runs :
    (∀ s : List Char,
        (Wcr.splitWhitespaceList s).length = specMaxRunCount true s) ∧
    (∀ s : List Char, (∀ c ∈ s, Wcr.rustIsWhitespace c) →
        (Wcr.splitWhitespaceList s).length = 0) ∧
    (Wcr.splitWhitespaceList "a  b\tc".data).length = 3 := by
  refine ⟨splitWhitespaceList_length, fun s h => ?_, by decide⟩
  rw [splitWhitespaceList_all_ws s h]
  rfl

/-- Witness for C8 at concrete inputs: the line `" \t "` is all whitespace and
contributes 0 words; the maximal-run count of `"a  b\tc"` is 3. -/
theorem word_count_counts_maximal_runs_witness :
    (Wcr.splitWhitespaceList " \t ".data).length = 0 ∧
    (Wcr.splitWhitespaceList "a  b\tc".data).length = specMaxRunCount true "a  b\tc".data := by
  exact ⟨word_count_counts_maximal_runs.2.1 " \t ".data (by decide),
         word_count_counts_maximal_runs.1 "a  b\tc".data⟩

theorem sourceLoop_nil (a : Catr.Args) (st : Bool × Nat) :
    Catr.sourceLoop a st [] = ([], st) := rfl

theorem sourceLoop_cons (a : Catr.Args) (st : Bool × Nat) (l : List Char)
    (ls : List (List Char)) :
    Catr.sourceLoop a st (l :: ls) =
      match Catr.lineStep a st l with
      | (none, st') => Catr.sourceLoop a st' ls
      | (some o, st') =>
        let (os, st'') := Catr.sourceLoop a st' ls
        (o :: os, st'') := rfl

theorem lineStep_sq (lb : Bool) (c : Nat) (l : List Char) :
    Catr.lineStep sqArgs (lb, c) l =
      if l.isEmpty ∧ lb then (none, (lb, c)) else (some l, (l.isEmpty, c)) := by
  simp only [Catr.lineStep, sqArgs]
  split <;> simp_all

theorem sourceLoop_append (a : Catr.Args) (st : Bool × Nat)
    (xs ys : List (List Char)) :
    Catr.sourceLoop a st (xs ++ ys) =
      ((Catr.sourceLoop a st xs).1 ++
         (Catr.sourceLoop a (Catr.sourceLoop a st xs).2 ys).1,
       (Catr.sourceLoop a (Catr.sourceLoop a st xs).2 ys).2) := by
  induction xs generalizing st with
  | nil => simp [sourceLoop_nil]
  | cons l ls ih =>
    rw [List.cons_append, sourceLoop_cons, sourceLoop_cons]
    rcases h : Catr.lineStep a st l with ⟨o, st'⟩
    cases o <;> simp [ih st']

theorem sourceLoop_sq_blanks_skipped (c k : Nat) :
    Catr.sourceLoop sqArgs (true, c) (List.replicate k []) = ([], (true, c)) := by
  induction k with
  | zero => rfl
  | succ j ih => rw [List.replicate_succ, sourceLoop_cons, lineStep_sq]; simpa using ih

theorem sourceLoop_sq_blanks_first (c k : Nat) (hk : 1 ≤ k) :
    Catr.sourceLoop sqArgs (false, c) (List.replicate k []) = ([[]], (true, c)) := by
  match k, hk with
  | j + 1, _ =>
    rw [List.replicate_succ, sourceLoop_cons, lineStep_sq]
    have h := sourceLoop_sq_blanks_skipped c j
    simp [h]

theorem sourceLoop_sq_state (lb : Bool) (c : Nat) (xs : List (List Char))
    (hxs : xs.getLast? ≠ some []) :
    (Catr.sourceLoop sqArgs (lb, c) xs).2 =
      (if xs.isEmpty then lb else false, c) := by
  induction xs generalizing lb with
  | nil => rfl
  | cons l ls ih =>
    rw [sourceLoop_cons, lineStep_sq]
    match ls with
    | [] =>
      have hl : l ≠ [] := by simpa using hxs
      have : l.isEmpty = false := by simpa [List.isEmpty_iff] using hl
      simp [this, sourceLoop_nil]
    | l' :: ls' =>
      have h2 : (l' :: ls').getLast? ≠ some [] := by
        rwa [List.getLast?_cons_cons] at hxs
      by_cases hb : l.isEmpty ∧ lb
      · simpa [hb] using ih lb h2
      · simp only [hb, if_false]
        simpa using ih l.isEmpty h2

theorem sourceLoop_sq_out_last (lb : Bool) (c : Nat) (xs : List (List Char))
    (hne : xs ≠ []) (hxs : xs.getLast? ≠ some []) :
    (Catr.sourceLoop sqArgs (lb, c) xs).1 ≠ [] ∧
      (Catr.sourceLoop sqArgs (lb, c) xs).1.getLast? ≠ some [] := by
  induction xs generalizing lb c with
  | nil => exact absurd rfl hne
  | cons l ls ih =>
    rw [sourceLoop_cons, lineStep_sq]
    match ls with
    | [] =>
      have hl : l ≠ [] := by simpa using hxs
      have hl' : l.isEmpty = false := by simpa [List.isEmpty_iff] using hl
      simp [hl', sourceLoop_nil, hl]
    | l' :: ls' =>
      have h2 : (l' :: ls').getLast? ≠ some [] := by
        rwa [List.getLast?_cons_cons] at hxs
      have ihl := fun lb c => ih lb c (by simp) h2
      by_cases hb : l.isEmpty ∧ lb
      · simpa [hb] using ihl lb c
      · simp only [hb, if_false]
        rcases hsl : Catr.sourceLoop sqArgs (l.isEmpty, c) (l' :: ls') with ⟨os, st⟩
        have hpair := ihl l.isEmpty c
        rw [hsl] at hpair
        rcases hpair with ⟨hos, hlast⟩
        simp only [] at hos hlast
        match os, hos with
        | o :: os', _ =>
          refine ⟨by simp, ?_⟩
          rw [List.getLast?_cons_cons]
          exact hlast

theorem sourceLoop_sq_out_head (c : Nat) (ys : List (List Char)) :
    (Catr.sourceLoop sqArgs (true, c) ys).1.head? ≠ some [] := by
  induction ys with
  | nil => simp [sourceLoop_nil]
  | cons y ys ih =>
    rw [sourceLoop_cons, lineStep_sq]
    by_cases hy : y.isEmpty
    · simpa [hy] using ih
    · have hy' : y ≠ [] := by simpa [List.isEmpty_iff] using hy
      rcases Catr.sourceLoop sqArgs (y.isEmpty, c) ys with ⟨os, st⟩
      simp [hy, hy']

/-- C4. With blank-line squeezing active, when one source ends in `k ≥ 2`
blank lines (following a non-blank line, if any) and the next source begins
with `m ≥ 1` blank lines, the combined output is (output for the first
source's non-blank prefix) ++ exactly one blank line ++ (output for the rest
of the second source, processed with the blank flag set): the flag is carried
across the source boundary, so the surrounding pieces end resp. begin with a
non-blank line and exactly one blank line appears at the boundary. -/
theorem squeeze_blank_single_blank_at_boundary (xs ys : List (List Char))
    (k m : Nat) (hk : 2 ≤ k) (_hm : 1 ≤ m) (hxs : xs.getLast? ≠ some []) :
    (Catr.linesRun sqArgs false
        [xs ++ List.replicate k [], List.replicate m [] ++ ys]).1 =
      (Catr.processSource sqArgs false xs).1 ++ [[]] ++
        (Catr.processSource sqArgs true ys).1 ∧
    (Catr.processSource sqArgs false xs).1.getLast? ≠ some [] ∧
    (Catr.processSource sqArgs true ys).1.head? ≠ some [] := by
  refine ⟨?_, ?_, ?_⟩
  · have hst : (Catr.sourceLoop sqArgs (false, 1) xs).2 = (false, 1) := by
      rw [sourceLoop_sq_state false 1 xs hxs]
      cases xs <;> simp
    simp only [Catr.linesRun, Catr.processSource, sourceLoop_append, hst,
      sourceLoop_sq_blanks_first 1 k (by omega),
      sourceLoop_sq_blanks_skipped]
    simp
  · match xs with
    | [] => simp [Catr.processSource, sourceLoop_nil]
    | x :: xs' =>
      have := sourceLoop_sq_out_last false 1 (x :: xs') (by simp) hxs
      simpa [Catr.processSource] using this.2
  · simpa [Catr.processSource] using sourceLoop_sq_out_head 1 ys

/-- Witness for C4: two concrete sources `["a", "", ""]` and `["", "b"]`
produce `["a"] ++ [""] ++ ["b"]` — one blank line at the boundary. -/
theorem squeeze_blank_single_blank_at_boundary_witness :
    (Catr.linesRun sqArgs false
        [[['a']] ++ List.replicate 2 [], List.replicate 1 [] ++ [[['b']].head!]]).1 =
      (Catr.processSource sqArgs false [['a']]).1 ++ [[]] ++
        (Catr.processSource sqArgs true [['b']]).1 ∧
    (Catr.processSource sqArgs false [['a']]).1.getLast? ≠ some [] ∧
    (Catr.processSource sqArgs true [['b']]).1.head? ≠ some [] := by
  have h := squeeze_blank_single_blank_at_boundary [['a']] [['b']] 2 1
    (by omega) (by omega) (by decide)
  simpa using h

theorem decodeUnits?_cons (u : List Nat) (us : List (List Nat))
    (ss : List (List Char)) (h : decodeUnits? (u :: us) = some ss) :
    ∃ s ss', utf8Decode? u = some s ∧ decodeUnits? us = some ss' ∧ ss = s :: ss' := by
  rw [decodeUnits?] at h
  match h1 : utf8Decode? u, h2 : decodeUnits? us with
  | some s, some ss' =>
    rw [h1, h2] at h
    exact ⟨s, ss', rfl, rfl, by simpa using h.symm⟩
  | some _, none => rw [h1, h2] at h; simp at h
  | none, _ => rw [h1] at h; simp at h

theorem decodeUnits?_length (us : List (List Nat)) (ss : List (List Char))
    (h : decodeUnits? us = some ss) : ss.length = us.length := by
  induction us generalizing ss with
  | nil => rw [decodeUnits?] at h; simp at h; simp [h]
  | cons u us ih =>
    obtain ⟨s, ss', _, h2, rfl⟩ := decodeUnits?_cons u us ss h
    simp [ih ss' h2]

theorem lineLoop_valid (N : Nat) (us : List (List Nat)) (ss : List (List Char))
    (h : decodeUnits? us = some ss) :
    Headr.lineLoop N us false = ((ss.take N).flatten, none) := by
  induction us generalizing N ss with
  | nil =>
    rw [decodeUnits?] at h
    simp only [Option.some_inj] at h
    cases N <;> simp [← h, Headr.lineLoop]
  | cons u us ih =>
    obtain ⟨s, ss', h1, h2, rfl⟩ := decodeUnits?_cons u us ss h
    cases N with
    | zero => simp [Headr.lineLoop]
    | succ N =>
      rw [Headr.lineLoop, h1]
      simp [ih N ss' h2]

/-- C5. For a fault-free source with content `bs`, Head in line mode with
limit `N` emits exactly the first `min N (number of lines)` line units
verbatim — `(ss.take N).flatten`, whose unit count is `min N ss.length`
where `ss.length` is the source's line count — and Head in byte mode with
limit `n` emits the permissive decoding of exactly the first
`min n (number of bytes)` bytes of the source; in both modes reaching end of
source early is not an error (exit code 0). The line-mode part assumes the
content decodes (line mode is otherwise aborted by `read_line`, cf. C2). -/
theorem head_emits_min_limit (bs : List Nat) (N n : Nat) (name : List Char)
    (ss : List (List Char)) (hdec : decodeUnits? (lineUnits bs) = some ss) :
    (Headr.headrMain { lines := N } [(name, .ok ⟨bs, false⟩)]).out =
        (ss.take N).flatten ∧
    (ss.take N).length = min N ss.length ∧
    ss.length = (lineUnits bs).length ∧
    (Headr.headrMain { lines := N } [(name, .ok ⟨bs, false⟩)]).code = 0 ∧
    (Headr.headrMain { lines := 10, bytes := some n } [(name, .ok ⟨bs, false⟩)]).out =
        utf8Lossy (bs.take n) ∧
    (bs.take n).length = min n bs.length ∧
    (Headr.headrMain { lines := 10, bytes := some n } [(name, .ok ⟨bs, false⟩)]).code = 0 := by
  refine ⟨?_, List.length_take N ss, decodeUnits?_length _ _ hdec, ?_, ?_, List.length_take n bs, ?_⟩ <;>
    simp [Headr.headrMain, Headr.run, Headr.runLoop, Headr.body, Headr.header,
      Headr.readOnce, readUnits, lineLoop_valid N (lineUnits bs) ss hdec]

/-- Witness for C5: content `"a\nb\nc\n"`, line limit 2, byte limit 4. -/
theorem head_emits_min_limit_witness :
    (Headr.headrMain { lines := 2 }
        [("f".data, .ok ⟨[97, 10, 98, 10, 99, 10], false⟩)]).out =
      (["a\n".data, "b\n".data, "c\n".data].take 2).flatten ∧
    (["a\n".data, "b\n".data, "c\n".data].take 2).length =
      min 2 ["a\n".data, "b\n".data, "c\n".data].length ∧
    ["a\n".data, "b\n".data, "c\n".data].length =
      (lineUnits [97, 10, 98, 10, 99, 10]).length ∧
    (Headr.headrMain { lines := 2 }
        [("f".data, .ok ⟨[97, 10, 98, 10, 99, 10], false⟩)]).code = 0 ∧
    (Headr.headrMain { lines := 10, bytes := some 4 }
        [("f".data, .ok ⟨[97, 10, 98, 10, 99, 10], false⟩)]).out =
      utf8Lossy ([97, 10, 98, 10, 99, 10].take 4) ∧
    ([97, 10, 98, 10, 99, 10].take 4).length = min 4 [97, 10, 98, 10, 99, 10].length ∧
    (Headr.headrMain { lines := 10, bytes := some 4 }
        [("f".data, .ok ⟨[97, 10, 98, 10, 99, 10], false⟩)]).code = 0 :=
  head_emits_min_limit [97, 10, 98, 10, 99, 10] 2 4 "f".data
    ["a\n".data, "b\n".data, "c\n".data] (by decide)

theorem linesOf_invalid (us : List (List Nat)) (ioe : Bool)
    (h : decodeUnits? us = none) : (Catr.linesOf us ioe).2 = some .invalidData := by
  induction us with
  | nil => rw [decodeUnits?] at h; simp at h
  | cons u us ih =>
    rw [Catr.linesOf]
    match h1 : utf8Decode? u with
    | none => simp
    | some s =>
      rw [decodeUnits?, h1] at h
      match h2 : decodeUnits? us with
      | some ss => rw [h2] at h; simp at h
      | none =>
        have := ih h2
        rcases hlo : Catr.linesOf us ioe with ⟨ls, e⟩
        rw [hlo] at this
        simpa [hlo] using this

/-- C2 amended. Only Head's byte mode decodes permissively: for every content
(valid UTF-8 or not) it succeeds, replacing invalid sequences with U+FFFD.
The Display tool instead aborts with the `InvalidData` error as soon as a
line fails to decode; the Count tool's loop silently stops at the first
undecodable line (returning the counts so far) rather than substituting a
placeholder; and Head's line mode aborts when it reaches an undecodable
line within its limit. -/
theorem lossy_decoding_only_in_head_byte_mode :
    (∀ (bs : List Nat) (n : Nat) (name : List Char),
        Headr.headrMain { lines := 10, bytes := some n } [(name, .ok ⟨bs, false⟩)] =
          { out := utf8Lossy (bs.take n), errs := [], code := 0 }) ∧
    (∀ (fi : Wcr.FileInfo) (u : List Nat) (us : List (List Nat)) (e : Bool),
        utf8Decode? u = none → Wcr.counterLoop fi (u :: us) e = fi) ∧
    (∀ (a : Catr.Args) (name : List Char) (bs : List Nat),
        decodeUnits? (lineUnits bs) = none →
          (Catr.catrMain a [(name, .ok ⟨bs, false⟩)]).code = 1 ∧
          (Catr.catrMain a [(name, .ok ⟨bs, false⟩)]).errs = [errMsg .invalidData]) ∧
    (∀ (N : Nat) (u : List Nat) (us : List (List Nat)) (ioe : Bool),
        utf8Decode? u = none →
          Headr.lineLoop (N + 1) (u :: us) ioe = ([], some .invalidData)) := by
  refine ⟨?_, ?_, ?_, ?_⟩
  · intro bs n name
    simp [Headr.headrMain, Headr.run, Headr.runLoop, Headr.body, Headr.header,
      Headr.readOnce]
  · intro fi u us e h
    rw [Wcr.counterLoop, h]
  · intro a name bs h
    have he := linesOf_invalid (lineUnits bs) false h
    rcases hlo : Catr.linesOf (lineUnits bs) false with ⟨ls, e⟩
    rw [hlo] at he
    simp only [] at he
    subst he
    constructor <;>
      simp [Catr.catrMain, Catr.run, Catr.runLoop, Catr.sourceLines, readUnits, hlo]
  · intro N u us ioe h
    rw [Headr.lineLoop, h]

/-- Witness for C2's amended claim at concrete inputs built around the
invalid byte 0xFF. -/
theorem lossy_decoding_only_in_head_byte_mode_witness :
    Headr.headrMain { lines := 10, bytes := some 1 } [("f".data, .ok ⟨[0xFF], false⟩)] =
      { out := utf8Lossy ([0xFF].take 1), errs := [], code := 0 } ∧
    Wcr.counterLoop {} [[0xFF]] false = {} ∧
    ((Catr.catrMain {} [("f".data, .ok ⟨[0xFF], false⟩)]).code = 1 ∧
      (Catr.catrMain {} [("f".data, .ok ⟨[0xFF], false⟩)]).errs = [errMsg .invalidData]) ∧
    Headr.lineLoop 1 [[0xFF]] false = ([], some .invalidData) :=
  ⟨lossy_decoding_only_in_head_byte_mode.1 [0xFF] 1 "f".data,
   lossy_decoding_only_in_head_byte_mode.2.1 {} [0xFF] [] false (by decide),
   lossy_decoding_only_in_head_byte_mode.2.2.1 {} "f".data [0xFF] (by decide),
   lossy_decoding_only_in_head_byte_mode.2.2.2 0 [0xFF] [] false (by decide)⟩

/-! ### Run-level characterizations for the open-failure, wc-format and
head-header claims -/

theorem counter_eq (src : Source) : Wcr.counter src = .ok (counterVal src) := rfl

theorem wcr_runLoop_eq (a : Wcr.Args) (t : Wcr.FileInfo) (srcs : List NamedSrc) :
    Wcr.runLoop a t srcs =
      (wcrExpectedLines a srcs, openFailures [] srcs, sumCounts t srcs, none) := by
  induction srcs generalizing t with
  | nil => rfl
  | cons s rest ih =>
    rcases s with ⟨nm, r⟩
    cases r with
    | error cause =>
      rw [Wcr.runLoop, ih t]
      simp [wcrExpectedLines, openFailures, sumCounts]
    | ok src =>
      rw [Wcr.runLoop, counter_eq]
      simp [ih (Wcr.addInfo t (counterVal src)), wcrExpectedLines, openFailures,
        sumCounts]

theorem wcr_run_eq (a : Wcr.Args) (srcs : List NamedSrc) :
    Wcr.run a srcs =
      (wcrExpectedLines (Wcr.defaultize a) srcs ++
        (if srcs.length > 1 then
          [Wcr.totalLine (Wcr.defaultize a) (sumCounts {} srcs)] else []),
       openFailures [] srcs, none) := by
  rw [Wcr.run]
  simp [wcr_runLoop_eq]

theorem headr_body_ok (ar : Headr.Args) (src : Source) (hio : src.ioErr = false)
    (hdec : (decodeUnits? (lineUnits src.bytes)).isSome) :
    (Headr.body ar src).2 = none := by
  rw [Headr.body]
  cases ar.bytes with
  | some n => simp [Headr.readOnce, hio]
  | none =>
    obtain ⟨ss, hss⟩ := Option.isSome_iff_exists.mp hdec
    simp [readUnits, hio, lineLoop_valid ar.lines (lineUnits src.bytes) ss hss]

theorem headr_runLoop_eq (ar : Headr.Args) (total i : Nat) (srcs : List NamedSrc)
    (h : goodSrcs srcs = true) :
    Headr.runLoop ar total i srcs =
      (headrExpectedOut ar total i srcs, openFailures [] srcs, none) := by
  induction srcs generalizing i with
  | nil => rfl
  | cons s rest ih =>
    have hs : goodSrc s = true := by
      have := h
      simp [goodSrcs, List.all_cons] at this
      exact this.1
    have hrest : goodSrcs rest = true := by
      have := h
      simp [goodSrcs, List.all_cons] at this
      simpa [goodSrcs] using this.2
    rcases s with ⟨nm, r⟩
    cases r with
    | error cause =>
      rw [Headr.runLoop]
      simp [ih (i + 1) hrest, headrExpectedOut, openFailures]
    | ok src =>
      have hio : src.ioErr = false := by
        simp [goodSrc] at hs; exact hs.1
      have hdec : (decodeUnits? (lineUnits src.bytes)).isSome := by
        simp [goodSrc] at hs; exact hs.2
      rw [Headr.runLoop]
      rcases hb : Headr.body ar src with ⟨b, e⟩
      have he : e = none := by
        have := headr_body_ok ar src hio hdec
        rwa [hb] at this
      subst he
      simp [ih (i + 1) hrest, headrExpectedOut, openFailures, headrBlock, hb]

theorem headr_run_eq (ar : Headr.Args) (srcs : List NamedSrc)
    (h : goodSrcs srcs = true) :
    Headr.run ar srcs =
      (headrExpectedOut ar srcs.length 0 srcs, openFailures [] srcs, none) :=
  headr_runLoop_eq ar srcs.length 0 srcs h

theorem linesOf_valid (us : List (List Nat)) (ss : List (List Char))
    (h : decodeUnits? us = some ss) :
    Catr.linesOf us false = (ss.map Catr.stripLineEnd, none) := by
  induction us generalizing ss with
  | nil =>
    rw [decodeUnits?] at h
    simp only [Option.some_inj] at h
    simp [← h, Catr.linesOf]
  | cons u us ih =>
    obtain ⟨s, ss', h1, h2, rfl⟩ := decodeUnits?_cons u us ss h
    rw [Catr.linesOf, h1]
    simp [ih ss' h2]

theorem catr_sourceLines_ok (src : Source) (hio : src.ioErr = false)
    (ss : List (List Char)) (hdec : decodeUnits? (lineUnits src.bytes) = some ss) :
    Catr.sourceLines src = (ss.map Catr.stripLineEnd, none) := by
  rw [Catr.sourceLines]
  simp [readUnits, hio, linesOf_valid (lineUnits src.bytes) ss hdec]

theorem catr_runLoop_eq (a : Catr.Args) (lb : Bool) (srcs : List NamedSrc)
    (h : goodSrcs srcs = true) :
    Catr.runLoop a lb srcs =
      ((Catr.linesRun a lb (decodedList srcs)).1,
       openFailures "Failed to open ".data srcs,
       (Catr.linesRun a lb (decodedList srcs)).2, none) := by
  induction srcs generalizing lb with
  | nil => rfl
  | cons s rest ih =>
    have hs : goodSrc s = true := by
      have := h
      simp [goodSrcs, List.all_cons] at this
      exact this.1
    have hrest : goodSrcs rest = true := by
      have := h
      simp [goodSrcs, List.all_cons] at this
      simpa [goodSrcs] using this.2
    rcases s with ⟨nm, r⟩
    cases r with
    | error cause =>
      rw [Catr.runLoop]
      simp [ih lb hrest, decodedList, openFailures, Catr.linesRun]
    | ok src =>
      have hio : src.ioErr = false := by
        simp [goodSrc] at hs; exact hs.1
      obtain ⟨ss, hss⟩ := Option.isSome_iff_exists.mp (by
        simp [goodSrc] at hs; exact hs.2)
      have hsl := catr_sourceLines_ok src hio ss hss
      have hlc : ∀ ls rest', Catr.linesRun a lb (ls :: rest') =
          ((Catr.processSource a lb ls).1 ++
             (Catr.linesRun a (Catr.processSource a lb ls).2 rest').1,
           (Catr.linesRun a (Catr.processSource a lb ls).2 rest').2) :=
        fun ls rest' => rfl
      rw [Catr.runLoop, hsl]
      simp only []
      rw [ih (Catr.processSource a lb (List.map Catr.stripLineEnd ss)).2 hrest]
      simp [decodedList, openFailures, hsl, hlc]

theorem catr_run_eq (a : Catr.Args) (srcs : List NamedSrc)
    (h : goodSrcs srcs = true) :
    Catr.run a srcs =
      ((Catr.linesRun (Catr.expandArgs a) false (decodedList srcs)).1,
       openFailures "Failed to open ".data srcs, none) := by
  rw [Catr.run]
  simp [catr_runLoop_eq (Catr.expandArgs a) false srcs h]

theorem fileLine_eq_spec (a : Wcr.Args) (c : Wcr.FileInfo) (name : List Char) :
    Wcr.fileLine a c name = specWcLine a c name := by
  rcases a with ⟨l, w, b, ch⟩
  cases l <;> cases w <;> cases b <;> cases ch <;>
    simp [Wcr.fileLine, Wcr.format_output, specWcLine, specWcFields, specWcField]

theorem totalLine_eq_spec (a : Wcr.Args) (t : Wcr.FileInfo) :
    Wcr.totalLine a t = specWcTotal a t := by
  rcases a with ⟨l, w, b, ch⟩
  cases l <;> cases w <;> cases b <;> cases ch <;>
    simp [Wcr.totalLine, Wcr.format_output, specWcTotal, specWcFields, specWcField]

/-- C7. The Count tool's stdout consists of, for each successfully opened
source in order, one line holding the active kinds' values in the fixed
order lines, words, bytes, characters — each right-aligned in an
8-character field with no separator — followed by a space and the source
name unless the name is `-`; and exactly when more than one source was
named (each named source is processed, successfully or not), one extra
line in the same format labeled `total`. -/
theorem wcr_output_format (a : Wcr.Args) (srcs : List NamedSrc) :
    (Wcr.run a srcs).1 =
      (srcs.filterMap fun s =>
        match s.2 with
        | .ok src => some (specWcLine (Wcr.defaultize a) (counterVal src) s.1)
        | .error _ => none) ++
      (if srcs.length > 1 then
        [specWcTotal (Wcr.defaultize a) (sumCounts {} srcs)] else []) := by
  rw [wcr_run_eq]
  simp only []
  congr 1
  · rw [wcrExpectedLines]
    apply List.filterMap_congr
    intro s _
    rcases s with ⟨nm, r⟩
    cases r <;> simp [fileLine_eq_spec]
  · split <;> simp [totalLine_eq_spec]

/-- C6 counterexample. The claim says every tool writes the open-failure
diagnostic in the exact form `<name>: <cause>`. The Display tool instead
writes `Failed to open <name>: <cause>`. -/
theorem catr_open_diagnostic_not_bare_form :
    (Catr.catrMain {} [("f".data, .error "cause".data)]).errs =
      ["Failed to open f: cause".data] ∧
    "Failed to open f: cause".data ≠ "f: cause".data := by
  decide

/-- C6 amended. When opening a name fails, Head and Count write the
diagnostic `<name>: <cause>` to the error channel while Display writes
`Failed to open <name>: <cause>`; in every tool the failed source is skipped
and all remaining sources are still processed in their original order: the
Count run equals, in full, one output line per successful source in order
plus one diagnostic per failure; the Head run's diagnostics are exactly the
failures in order with no fatal error; and the Display run's stdout equals
the line-level processing of exactly the successfully opened sources in
order. (The Head and Display parts assume the opened sources are fault-free,
since a mid-stream failure is a separately specified abort, cf. C1/C2.) -/
theorem open_failure_skipped_rest_processed :
    (∀ (a : Wcr.Args) (srcs : List NamedSrc),
        Wcr.run a srcs =
          (wcrExpectedLines (Wcr.defaultize a) srcs ++
            (if srcs.length > 1 then
              [Wcr.totalLine (Wcr.defaultize a) (sumCounts {} srcs)] else []),
           openFailures [] srcs, none)) ∧
    (∀ (ar : Headr.Args) (srcs : List NamedSrc), goodSrcs srcs = true →
        (Headr.run ar srcs).2.1 = openFailures [] srcs ∧
        (Headr.run ar srcs).2.2 = none) ∧
    (∀ (a : Catr.Args) (srcs : List NamedSrc), goodSrcs srcs = true →
        Catr.run a srcs =
          ((Catr.linesRun (Catr.expandArgs a) false (decodedList srcs)).1,
           openFailures "Failed to open ".data srcs, none)) := by
  refine ⟨wcr_run_eq, fun ar srcs h => ?_, catr_run_eq⟩
  rw [headr_run_eq ar srcs h]
  exact ⟨rfl, rfl⟩

/-- Witness for C6's amended claim: a failing open between two good sources;
all three tools report the failure and process both good sources. -/
theorem open_failure_skipped_rest_processed_witness :
    Wcr.run {} [("g".data, .ok ⟨[97, 10], false⟩),
                ("bad".data, .error "no".data),
                ("h".data, .ok ⟨[98, 10], false⟩)] =
      (wcrExpectedLines (Wcr.defaultize {})
          [("g".data, .ok ⟨[97, 10], false⟩), ("bad".data, .error "no".data),
           ("h".data, .ok ⟨[98, 10], false⟩)] ++
        (if ([("g".data, (.ok ⟨[97, 10], false⟩ : Except (List Char) Source)),
              ("bad".data, .error "no".data),
              ("h".data, .ok ⟨[98, 10], false⟩)]).length > 1 then
          [Wcr.totalLine (Wcr.defaultize {})
            (sumCounts {} [("g".data, .ok ⟨[97, 10], false⟩),
              ("bad".data, .error "no".data),
              ("h".data, .ok ⟨[98, 10], false⟩)])] else []),
       openFailures [] [("g".data, .ok ⟨[97, 10], false⟩),
         ("bad".data, .error "no".data), ("h".data, .ok ⟨[98, 10], false⟩)],
       none) ∧
    ((Headr.run {} [("g".data, .ok ⟨[97, 10], false⟩),
        ("bad".data, .error "no".data), ("h".data, .ok ⟨[98, 10], false⟩)]).2.1 =
      openFailures [] [("g".data, .ok ⟨[97, 10], false⟩),
        ("bad".data, .error "no".data), ("h".data, .ok ⟨[98, 10], false⟩)] ∧
     (Headr.run {} [("g".data, .ok ⟨[97, 10], false⟩),
        ("bad".data, .error "no".data), ("h".data, .ok ⟨[98, 10], false⟩)]).2.2 = none) ∧
    Catr.run {} [("g".data, .ok ⟨[97, 10], false⟩),
        ("bad".data, .error "no".data), ("h".data, .ok ⟨[98, 10], false⟩)] =
      ((Catr.linesRun (Catr.expandArgs {}) false
          (decodedList [("g".data, .ok ⟨[97, 10], false⟩),
            ("bad".data, .error "no".data), ("h".data, .ok ⟨[98, 10], false⟩)])).1,
       openFailures "Failed to open ".data
         [("g".data, .ok ⟨[97, 10], false⟩), ("bad".data, .error "no".data),
          ("h".data, .ok ⟨[98, 10], false⟩)],
       none) :=
  ⟨open_failure_skipped_rest_processed.1 {} _,
   open_failure_skipped_rest_processed.2.1 {} _ (by decide),
   open_failure_skipped_rest_processed.2.2 {} _ (by decide)⟩

/-! ### UTF-8 encode/decode facts for the Display identity claim -/

theorem char_toNat_ofNat (v : Nat) (h : v.isValidChar) : (Char.ofNat v).toNat = v := by
  simp [Char.ofNat, h, Char.ofNatAux, Char.toNat, UInt32.toNat]

theorem char_toNat_inj (c d : Char) (h : c.toNat = d.toNat) : c = d :=
  Char.ext (UInt32.ext h)

theorem utf8Encode_nil : utf8Encode [] = [] := rfl

theorem utf8Encode_cons (c : Char) (s : List Char) :
    utf8Encode (c :: s) = utf8EncodeChar c ++ utf8Encode s := rfl

theorem utf8Encode_append (a b : List Char) :
    utf8Encode (a ++ b) = utf8Encode a ++ utf8Encode b := by
  simp [utf8Encode]

theorem utf8DecodeStep_characterize (b : Nat) (bs : List Nat) (ch : Char)
    (rest : List Nat) (h : utf8DecodeStep b bs = some (ch, rest)) :
    (b < 0x80 ∧ ch = Char.ofNat b ∧ rest = bs) ∨
    (∃ c, bs = c :: rest ∧ 0xC2 ≤ b ∧ b ≤ 0xDF ∧ 0x80 ≤ c ∧ c ≤ 0xBF ∧
      ch = Char.ofNat ((b - 0xC0) * 64 + (c - 0x80))) ∨
    (∃ c d, bs = c :: d :: rest ∧ 0xE0 ≤ b ∧ b ≤ 0xEF ∧
      0x80 ≤ c ∧ c ≤ 0xBF ∧ 0x80 ≤ d ∧ d ≤ 0xBF ∧
      ((b = 0xE0 ∧ 0xA0 ≤ c) ∨ (b = 0xED ∧ c ≤ 0x9F) ∨ (b ≠ 0xE0 ∧ b ≠ 0xED)) ∧
      ch = Char.ofNat ((b - 0xE0) * 4096 + (c - 0x80) * 64 + (d - 0x80))) ∨
    (∃ c d e, bs = c :: d :: e :: rest ∧ 0xF0 ≤ b ∧ b ≤ 0xF4 ∧
      0x80 ≤ c ∧ c ≤ 0xBF ∧ 0x80 ≤ d ∧ d ≤ 0xBF ∧ 0x80 ≤ e ∧ e ≤ 0xBF ∧
      ((b = 0xF0 ∧ 0x90 ≤ c) ∨ (b = 0xF4 ∧ c ≤ 0x8F) ∨ (b ≠ 0xF0 ∧ b ≠ 0xF4)) ∧
      ch = Char.ofNat ((b - 0xF0) * 262144 + (c - 0x80) * 4096 +
                       (d - 0x80) * 64 + (e - 0x80))) := by
  rw [utf8DecodeStep.eq_def] at h
  by_cases h80 : b < 0x80
  · rw [if_pos h80] at h
    simp only [Option.some_inj, Prod.mk.injEq] at h
    exact Or.inl ⟨h80, h.1.symm, h.2.symm⟩
  · rw [if_neg h80] at h
    by_cases hb2 : (0xC2 ≤ b && b ≤ 0xDF) = true
    · rw [if_pos hb2] at h
      have hbr : 0xC2 ≤ b ∧ b ≤ 0xDF := by simpa using hb2
      cases bs with
      | nil => simp at h
      | cons c bs' =>
        simp only [] at h
        by_cases hc : utf8Cont c = true
        · rw [if_pos hc] at h
          have hcr : 0x80 ≤ c ∧ c ≤ 0xBF := by simpa [utf8Cont] using hc
          simp only [Option.some_inj, Prod.mk.injEq] at h
          exact Or.inr (Or.inl ⟨c, by rw [h.2], hbr.1, hbr.2, hcr.1, hcr.2, h.1.symm⟩)
        · rw [if_neg hc] at h; simp at h
    · rw [if_neg hb2] at h
      by_cases hb3 : (0xE0 ≤ b && b ≤ 0xEF) = true
      · rw [if_pos hb3] at h
        have hbr : 0xE0 ≤ b ∧ b ≤ 0xEF := by simpa using hb3
        match bs with
        | [] => simp at h
        | [c] => simp at h
        | c :: d :: bs' =>
          simp only [] at h
          by_cases hcd : ((if b = 0xE0 then 0xA0 ≤ c && c ≤ 0xBF
              else if b = 0xED then 0x80 ≤ c && c ≤ 0x9F
              else utf8Cont c) && utf8Cont d) = true
          · rw [if_pos hcd] at h
            simp only [Option.some_inj, Prod.mk.injEq] at h
            have h1 := (Bool.and_eq_true _ _).mp hcd
            have hdr : 0x80 ≤ d ∧ d ≤ 0xBF := by simpa [utf8Cont] using h1.2
            have hcsplit : (0x80 ≤ c ∧ c ≤ 0xBF) ∧
                ((b = 0xE0 ∧ 0xA0 ≤ c) ∨ (b = 0xED ∧ c ≤ 0x9F) ∨
                  (b ≠ 0xE0 ∧ b ≠ 0xED)) := by
              by_cases he0 : b = 0xE0
              · have := h1.1
                rw [if_pos he0] at this
                have hc2 : 0xA0 ≤ c ∧ c ≤ 0xBF := by simpa using this
                exact ⟨⟨by omega, hc2.2⟩, Or.inl ⟨he0, hc2.1⟩⟩
              · by_cases hed : b = 0xED
                · have := h1.1
                  rw [if_neg he0, if_pos hed] at this
                  have hc2 : 0x80 ≤ c ∧ c ≤ 0x9F := by simpa using this
                  exact ⟨⟨hc2.1, by omega⟩, Or.inr (Or.inl ⟨hed, hc2.2⟩)⟩
                · have := h1.1
                  rw [if_neg he0, if_neg hed] at this
                  have hc2 : 0x80 ≤ c ∧ c ≤ 0xBF := by simpa [utf8Cont] using this
                  exact ⟨hc2, Or.inr (Or.inr ⟨he0, hed⟩)⟩
            exact Or.inr (Or.inr (Or.inl ⟨c, d, by rw [h.2], hbr.1, hbr.2,
              hcsplit.1.1, hcsplit.1.2, hdr.1, hdr.2, hcsplit.2, h.1.symm⟩))
          · rw [if_neg hcd] at h; simp at h
      · rw [if_neg hb3] at h
        by_cases hb4 : (0xF0 ≤ b && b ≤ 0xF4) = true
        · rw [if_pos hb4] at h
          have hbr : 0xF0 ≤ b ∧ b ≤ 0xF4 := by simpa using hb4
          match bs with
          | [] => simp at h
          | [c] => simp at h
          | [c, d] => simp at h
          | c :: d :: e :: bs' =>
            simp only [] at h
            by_cases hcde : ((if b = 0xF0 then 0x90 ≤ c && c ≤ 0xBF
                else if b = 0xF4 then 0x80 ≤ c && c ≤ 0x8F
                else utf8Cont c) && utf8Cont d && utf8Cont e) = true
            · rw [if_pos hcde] at h
              simp only [Option.some_inj, Prod.mk.injEq] at h
              have h1 := (Bool.and_eq_true _ _).mp hcde
              have h2 := (Bool.and_eq_true _ _).mp h1.1
              have hdr : 0x80 ≤ d ∧ d ≤ 0xBF := by simpa [utf8Cont] using h2.2
              have her : 0x80 ≤ e ∧ e ≤ 0xBF := by simpa [utf8Cont] using h1.2
              have hcsplit : (0x80 ≤ c ∧ c ≤ 0xBF) ∧
                  ((b = 0xF0 ∧ 0x90 ≤ c) ∨ (b = 0xF4 ∧ c ≤ 0x8F) ∨
                    (b ≠ 0xF0 ∧ b ≠ 0xF4)) := by
                by_cases hf0 : b = 0xF0
                · have := h2.1
                  rw [if_pos hf0] at this
                  have hc2 : 0x90 ≤ c ∧ c ≤ 0xBF := by simpa using this
                  exact ⟨⟨by omega, hc2.2⟩, Or.inl ⟨hf0, hc2.1⟩⟩
                · by_cases hf4 : b = 0xF4
                  · have := h2.1
                    rw [if_neg hf0, if_pos hf4] at this
                    have hc2 : 0x80 ≤ c ∧ c ≤ 0x8F := by simpa using this
                    exact ⟨⟨hc2.1, by omega⟩, Or.inr (Or.inl ⟨hf4, hc2.2⟩)⟩
                  · have := h2.1
                    rw [if_neg hf0, if_neg hf4] at this
                    have hc2 : 0x80 ≤ c ∧ c ≤ 0xBF := by simpa [utf8Cont] using this
                    exact ⟨hc2, Or.inr (Or.inr ⟨hf0, hf4⟩)⟩
              exact Or.inr (Or.inr (Or.inr ⟨c, d, e, by rw [h.2], hbr.1, hbr.2,
                hcsplit.1.1, hcsplit.1.2, hdr.1, hdr.2, her.1, her.2,
                hcsplit.2, h.1.symm⟩))
            · rw [if_neg hcde] at h; simp at h
        · rw [if_neg hb4] at h; simp at h

theorem utf8Encode_decode_aux (fuel : Nat) : ∀ (u : List Nat), u.length ≤ fuel →
    ∀ s, utf8DecodeAux fuel u = some s → utf8Encode s = u := by
  induction fuel with
  | zero =>
    intro u hu s h
    match u with
    | [] =>
      rw [utf8DecodeAux] at h
      simp only [Option.some_inj] at h
      simp [← h, utf8Encode]
    | b :: bs => simp only [List.length_cons] at hu; omega
  | succ fuel ih =>
    intro u hu s h
    match u with
    | [] =>
      rw [utf8DecodeAux] at h
      simp only [Option.some_inj] at h
      simp [← h, utf8Encode]
    | b :: bs =>
      rw [utf8DecodeAux] at h
      rcases hstep : utf8DecodeStep b bs with _ | ⟨ch, rest⟩
      · rw [hstep] at h; simp at h
      · rw [hstep] at h
        simp only [] at h
        obtain ⟨s', hs', rfl⟩ := Option.map_eq_some'.mp h
        simp only [List.length_cons] at hu
        rcases utf8DecodeStep_characterize b bs ch rest hstep with
          ⟨hr, rfl, rfl⟩ |
          ⟨c, rfl, hb1, hb2, hc1, hc2, rfl⟩ |
          ⟨c, d, rfl, hb1, hb2, hc1, hc2, hd1, hd2, hsp, rfl⟩ |
          ⟨c, d, e, rfl, hb1, hb2, hc1, hc2, hd1, hd2, he1, he2, hsp, rfl⟩
        · have henc := ih rest (by omega) s' hs'
          rw [utf8Encode_cons, henc]
          have hval : b.isValidChar := Or.inl (by omega)
          simp [utf8EncodeChar, char_toNat_ofNat b hval, hr]
        · have henc := ih rest (by simp at hu; omega) s' hs'
          rw [utf8Encode_cons, henc]
          have hval : ((b - 0xC0) * 64 + (c - 0x80)).isValidChar :=
            Or.inl (by omega)
          simp only [utf8EncodeChar, char_toNat_ofNat _ hval]
          rw [if_neg (by omega), if_pos (by omega)]
          simp only [List.cons_append, List.nil_append, List.cons.injEq]
          exact ⟨by omega, by omega, trivial⟩
        · have henc := ih rest (by simp at hu; omega) s' hs'
          rw [utf8Encode_cons, henc]
          have hval : ((b - 0xE0) * 4096 + (c - 0x80) * 64 + (d - 0x80)).isValidChar := by
            rcases hsp with ⟨rfl, hc3⟩ | ⟨rfl, hc3⟩ | ⟨hn1, hn2⟩
            · exact Or.inl (by omega)
            · exact Or.inl (by omega)
            · by_cases hbe : b ≤ 0xEC
              · exact Or.inl (by omega)
              · exact Or.inr (by omega)
          have hvr : 0x800 ≤ (b - 0xE0) * 4096 + (c - 0x80) * 64 + (d - 0x80) := by
            rcases hsp with ⟨rfl, hc3⟩ | ⟨rfl, hc3⟩ | ⟨hn1, hn2⟩ <;> omega
          simp only [utf8EncodeChar, char_toNat_ofNat _ hval]
          rw [if_neg (by omega), if_neg (by omega), if_pos (by omega)]
          simp only [List.cons_append, List.nil_append, List.cons.injEq]
          exact ⟨by omega, by omega, by omega, trivial⟩
        · have henc := ih rest (by simp at hu; omega) s' hs'
          rw [utf8Encode_cons, henc]
          have hval : ((b - 0xF0) * 262144 + (c - 0x80) * 4096 +
              (d - 0x80) * 64 + (e - 0x80)).isValidChar := by
            rcases hsp with ⟨rfl, hc3⟩ | ⟨rfl, hc3⟩ | ⟨hn1, hn2⟩ <;>
              exact Or.inr (by omega)
          have hvr : 0x10000 ≤ (b - 0xF0) * 262144 + (c - 0x80) * 4096 +
              (d - 0x80) * 64 + (e - 0x80) := by
            rcases hsp with ⟨rfl, hc3⟩ | ⟨rfl, hc3⟩ | ⟨hn1, hn2⟩ <;> omega
          simp only [utf8EncodeChar, char_toNat_ofNat _ hval]
          rw [if_neg (by omega), if_neg (by omega), if_neg (by omega)]
          simp only [List.cons_append, List.nil_append, List.cons.injEq]
          exact ⟨by omega, by omega, by omega, by omega, trivial⟩

/-- Round trip: encoding a strictly decoded byte sequence reproduces it. -/
theorem utf8Encode_decode (u : List Nat) (s : List Char)
    (h : utf8Decode? u = some s) : utf8Encode s = u :=
  utf8Encode_decode_aux u.length u (le_refl _) s h

theorem utf8EncodeChar_lf : utf8EncodeChar (Char.ofNat 10) = [10] := by decide

theorem utf8EncodeChar_ne_nil (c : Char) : utf8EncodeChar c ≠ [] := by
  rw [utf8EncodeChar]
  by_cases h1 : c.toNat < 0x80
  · simp [h1]
  · by_cases h2 : c.toNat < 0x800
    · simp [h1, h2]
    · by_cases h3 : c.toNat < 0x10000 <;> simp [h1, h2, h3]

theorem utf8EncodeChar_getLast_ascii (c : Char) (x : Nat) (hx : x < 0x80) :
    (utf8EncodeChar c).getLast? = some x ↔ c.toNat = x := by
  rw [utf8EncodeChar]
  by_cases h1 : c.toNat < 0x80
  · simp [h1]
  · rw [if_neg h1]
    by_cases h2 : c.toNat < 0x800
    · rw [if_pos h2]
      simp only [List.getLast?_cons_cons, List.getLast?_singleton, Option.some_inj]
      omega
    · rw [if_neg h2]
      by_cases h3 : c.toNat < 0x10000
      · rw [if_pos h3]
        simp only [List.getLast?_cons_cons, List.getLast?_singleton, Option.some_inj]
        omega
      · rw [if_neg h3]
        simp only [List.getLast?_cons_cons, List.getLast?_singleton, Option.some_inj]
        omega

theorem utf8EncodeChar_getLast_lf (c : Char) :
    (utf8EncodeChar c).getLast? = some 10 ↔ c = '\n' := by
  rw [utf8EncodeChar_getLast_ascii c 10 (by omega)]
  constructor
  · intro h; exact char_toNat_inj c '\n' (by rw [h]; rfl)
  · intro h; rw [h]; rfl

theorem utf8EncodeChar_getLast_cr (c : Char) :
    (utf8EncodeChar c).getLast? = some 13 ↔ c = '\r' := by
  rw [utf8EncodeChar_getLast_ascii c 13 (by omega)]
  constructor
  · intro h; exact char_toNat_inj c '\r' (by rw [h]; rfl)
  · intro h; rw [h]; rfl

theorem utf8Encode_concat (a : List Char) (c : Char) :
    utf8Encode (a ++ [c]) = utf8Encode a ++ utf8EncodeChar c := by
  rw [utf8Encode_append]
  simp [utf8Encode]

theorem utf8Encode_getLast_lf (s : List Char) (hs : s ≠ []) :
    ((utf8Encode s).getLast? = some 10 ↔ s.getLast? = some '\n') := by
  rcases List.eq_nil_or_concat s with rfl | ⟨a, c, rfl⟩
  · exact absurd rfl hs
  · rw [List.concat_eq_append, utf8Encode_concat,
      List.getLast?_append_of_ne_nil _ (utf8EncodeChar_ne_nil c),
      List.getLast?_concat, utf8EncodeChar_getLast_lf]
    simp

theorem utf8Encode_getLast_cr (s : List Char) (hs : s ≠ []) :
    ((utf8Encode s).getLast? = some 13 ↔ s.getLast? = some '\r') := by
  rcases List.eq_nil_or_concat s with rfl | ⟨a, c, rfl⟩
  · exact absurd rfl hs
  · rw [List.concat_eq_append, utf8Encode_concat,
      List.getLast?_append_of_ne_nil _ (utf8EncodeChar_ne_nil c),
      List.getLast?_concat, utf8EncodeChar_getLast_cr]
    simp

theorem utf8EncodeChar_lf_lit : utf8EncodeChar '\n' = [10] := by decide

theorem utf8EncodeChar_cr_lit : utf8EncodeChar '\r' = [13] := by decide

theorem enc_strip_unit_terminated (w : List Nat) (s : List Char)
    (h : utf8Decode? (w ++ [10]) = some s) :
    utf8Encode (Catr.stripLineEnd s) =
      (if w.getLast? = some 13 then w.dropLast else w) := by
  have henc : utf8Encode s = w ++ [10] := utf8Encode_decode _ _ h
  have hsne : s ≠ [] := by
    intro h0
    rw [h0, utf8Encode_nil] at henc
    simp at henc
  have hlast : s.getLast? = some '\n' := by
    rw [← utf8Encode_getLast_lf s hsne, henc, List.getLast?_concat]
  rcases List.eq_nil_or_concat s with rfl | ⟨a, c, rfl⟩
  · exact absurd rfl hsne
  · rw [List.concat_eq_append] at henc hlast ⊢
    have hc : c = '\n' := by
      rw [List.getLast?_concat] at hlast
      simpa using hlast
    subst hc
    rw [utf8Encode_concat, utf8EncodeChar_lf_lit] at henc
    have ha : utf8Encode a = w := by
      have := List.append_inj_left' henc (by simp)
      exact this
    rw [Catr.stripLineEnd]
    rw [if_pos (by rw [List.getLast?_concat]), List.dropLast_concat]
    by_cases hr : a.getLast? = some '\r'
    · rw [if_pos hr]
      rcases List.eq_nil_or_concat a with rfl | ⟨a', c', rfl⟩
      · simp at hr
      · rw [List.concat_eq_append] at hr ha ⊢
        have hc' : c' = '\r' := by
          rw [List.getLast?_concat] at hr
          simpa using hr
        subst hc'
        rw [utf8Encode_concat, utf8EncodeChar_cr_lit] at ha
        have hw13 : w.getLast? = some 13 := by
          rw [← ha, List.getLast?_concat]
        rw [if_pos hw13, ← ha, List.dropLast_concat, List.dropLast_concat]
    · rw [if_neg hr]
      have hw13 : ¬w.getLast? = some 13 := by
        rcases List.eq_nil_or_concat a with rfl | ⟨a', c', rfl⟩
        · rw [utf8Encode_nil] at ha
          rw [← ha]
          simp
        · intro hcon
          rw [← ha] at hcon
          rw [utf8Encode_getLast_cr _ (by simp)] at hcon
          exact hr hcon
      rw [if_neg hw13, ha]

theorem enc_strip_unit_unterminated (u : List Nat) (s : List Char)
    (h : utf8Decode? u = some s) (h10 : ¬10 ∈ u) :
    Catr.stripLineEnd s = s := by
  by_cases hsne : s = []
  · subst hsne
    rw [Catr.stripLineEnd]
    simp
  · have hlast : ¬s.getLast? = some '\n' := by
      intro hl
      have h2 := (utf8Encode_getLast_lf s hsne).mpr hl
      rw [utf8Encode_decode u s h] at h2
      exact h10 (List.mem_of_mem_getLast? h2)
    rw [Catr.stripLineEnd, if_neg hlast]

theorem lineUnits_peel (bs : List Nat) (hne : bs ≠ []) :
    (∃ w rest, bs = w ++ 10 :: rest ∧ ¬10 ∈ w ∧
      lineUnits bs = (w ++ [10]) :: lineUnits rest) ∨
    (¬10 ∈ bs ∧ lineUnits bs = [bs]) := by
  induction bs with
  | nil => exact absurd rfl hne
  | cons b bs' ih =>
    by_cases hb : b = 10
    · subst hb
      left
      exact ⟨[], bs', rfl, by simp, by rw [lineUnits]; simp⟩
    · by_cases hbs' : bs' = []
      · subst hbs'
        right
        refine ⟨by simp; omega, ?_⟩
        rw [lineUnits]
        simp [hb, lineUnits]
      · rcases ih hbs' with ⟨w, rest, heq, hw, hlu⟩ | ⟨h10, hlu⟩
        · left
          refine ⟨b :: w, rest, by simp [heq], ?_, ?_⟩
          · simp only [List.mem_cons, not_or]
            exact ⟨fun hc => hb hc.symm, hw⟩
          · rw [lineUnits, if_neg hb, hlu]
            rfl
        · right
          refine ⟨?_, ?_⟩
          · simp only [List.mem_cons, not_or]
            exact ⟨fun hc => hb hc.symm, h10⟩
          · rw [lineUnits, if_neg hb, hlu]

theorem crlfReplace_no10 : ∀ (w : List Nat), ¬10 ∈ w → crlfReplace w = w := by
  intro w
  induction w with
  | nil => intro _; rfl
  | cons b w' ih =>
    intro h
    match w' with
    | [] => rfl
    | c :: w'' =>
      rw [crlfReplace]
      have hc : ¬(b = 13 ∧ c = 10) := by
        rintro ⟨_, rfl⟩
        simp at h
      rw [if_neg hc, ih (fun hm => h (List.mem_cons_of_mem b hm))]

theorem crlfReplace_append_unit : ∀ (w : List Nat), ¬10 ∈ w → ∀ (rest : List Nat),
    crlfReplace (w ++ 10 :: rest) =
      (if w.getLast? = some 13 then w.dropLast else w) ++ 10 :: crlfReplace rest := by
  intro w
  induction w with
  | nil =>
    intro _ rest
    simp only [List.nil_append, List.getLast?_nil]
    rw [if_neg (by simp)]
    match rest with
    | [] => rfl
    | r :: rs =>
      rw [crlfReplace, if_neg (by omega)]
      simp
  | cons a w' ih =>
    intro h rest
    have ha : a ≠ 10 := by
      intro hEq
      subst hEq
      exact h (List.mem_cons_self _ _)
    have hw' : ¬10 ∈ w' := fun hm => h (List.mem_cons_of_mem a hm)
    match w' with
    | [] =>
      simp only [List.singleton_append, List.cons_append, List.nil_append]
      rw [crlfReplace]
      by_cases h13 : a = 13
      · subst h13
        rw [if_pos ⟨rfl, rfl⟩]
        simp
      · rw [if_neg (by rintro ⟨h', -⟩; exact h13 h')]
        have h0 := ih (by simp) rest
        simp only [List.nil_append, List.getLast?_nil] at h0
        rw [if_neg (by simp)] at h0
        rw [h0]
        simp only [List.getLast?_singleton]
        rw [if_neg (by simpa using h13)]
        simp
    | c :: w'' =>
      have hstep : (a :: (c :: w'')) ++ 10 :: rest = a :: ((c :: w'') ++ 10 :: rest) := by
        simp
      rw [hstep]
      have hc10 : c ≠ 10 := by
        intro hEq
        subst hEq
        exact hw' (List.mem_cons_self _ _)
      have hassoc : (c :: w'') ++ 10 :: rest = c :: (w'' ++ 10 :: rest) := by simp
      rw [hassoc, crlfReplace, if_neg (by rintro ⟨-, hcc⟩; exact hc10 hcc), ← hassoc,
        ih hw' rest]
      rw [List.getLast?_cons_cons]
      by_cases hg : (c :: w'').getLast? = some 13
      · rw [if_pos hg, if_pos hg]
        simp [List.dropLast]
      · rw [if_neg hg, if_neg hg]
        simp

theorem ensureNl_append10 (a x : List Nat) :
    ensureNl (a ++ 10 :: x) = a ++ 10 :: ensureNl x := by
  match x with
  | [] =>
    rw [ensureNl, ensureNl]
    rw [if_neg (show ¬(a ++ 10 :: ([] : List Nat)) = [] by simp)]
    have h1 : a ++ 10 :: ([] : List Nat) = a ++ [10] := rfl
    rw [h1, List.getLast?_concat, if_pos rfl]
    simp
  | y :: ys =>
    rw [ensureNl, ensureNl]
    rw [if_neg (show ¬(a ++ 10 :: y :: ys) = [] by simp),
        if_neg (show ¬(y :: ys) = ([] : List Nat) by simp)]
    rw [List.getLast?_append_cons, List.getLast?_cons_cons]
    by_cases hg : (y :: ys).getLast? = some 10
    · rw [if_pos hg, if_pos hg]
    · rw [if_neg hg, if_neg hg]
      simp

theorem catr_out_normalizes_aux (n : Nat) : ∀ (bs : List Nat), bs.length ≤ n →
    ∀ ss, decodeUnits? (lineUnits bs) = some ss →
    utf8Encode ((ss.map (fun s => Catr.stripLineEnd s ++ ['\n'])).flatten) =
      specNormalizeBytes bs := by
  induction n with
  | zero =>
    intro bs hbs ss hdec
    match bs with
    | [] =>
      rw [lineUnits, decodeUnits?] at hdec
      simp only [Option.some_inj] at hdec
      rw [← hdec]
      simp [utf8Encode, specNormalizeBytes, crlfReplace, ensureNl]
    | _ :: _ => simp only [List.length_cons] at hbs; omega
  | succ n ih =>
    intro bs hbs ss hdec
    by_cases hne : bs = []
    · subst hne
      rw [lineUnits, decodeUnits?] at hdec
      simp only [Option.some_inj] at hdec
      rw [← hdec]
      simp [utf8Encode, specNormalizeBytes, crlfReplace, ensureNl]
    · rcases lineUnits_peel bs hne with ⟨w, rest, heq, hw, hlu⟩ | ⟨h10, hlu⟩
      · rw [hlu] at hdec
        obtain ⟨s₁, ss', hdec1, hdecr, rfl⟩ := decodeUnits?_cons _ _ _ hdec
        have hrest : rest.length ≤ n := by
          rw [heq] at hbs
          simp only [List.length_append, List.length_cons] at hbs
          omega
        have hIH := ih rest hrest ss' hdecr
        rw [heq]
        simp only [List.map_cons, List.flatten_cons]
        rw [utf8Encode_append, utf8Encode_concat, utf8EncodeChar_lf_lit,
          enc_strip_unit_terminated w s₁ hdec1, hIH]
        conv_rhs => rw [specNormalizeBytes, crlfReplace_append_unit w hw rest,
          ensureNl_append10]
        simp [specNormalizeBytes]
      · rw [hlu] at hdec
        obtain ⟨s₁, ss', hdec1, hdecr, rfl⟩ := decodeUnits?_cons _ _ _ hdec
        have hss' : ss' = [] := by
          rw [decodeUnits?] at hdecr
          simpa using hdecr.symm
        subst hss'
        simp only [List.map_cons, List.map_nil, List.flatten_cons, List.flatten_nil,
          List.append_nil]
        rw [enc_strip_unit_unterminated bs s₁ hdec1 h10, utf8Encode_concat,
          utf8EncodeChar_lf_lit, utf8Encode_decode bs s₁ hdec1]
        have hgl : ¬bs.getLast? = some 10 := fun hc => h10 (List.mem_of_mem_getLast? hc)
        rw [specNormalizeBytes, crlfReplace_no10 bs h10, ensureNl, if_neg hne,
          if_neg hgl]

theorem lineStep_noopt (st : Bool × Nat) (l : List Char) :
    Catr.lineStep {} st l = (some l, (l.isEmpty, st.2)) := by
  simp [Catr.lineStep]

theorem sourceLoop_noopt (ls : List (List Char)) : ∀ (st : Bool × Nat),
    (Catr.sourceLoop {} st ls).1 = ls := by
  induction ls with
  | nil => intro st; rfl
  | cons l ls ih =>
    intro st
    rw [sourceLoop_cons, lineStep_noopt]
    simp [ih]

/-- C9. The Display tool with no options active reproduces the source byte
for byte except for line-terminator normalization: encoding its stdout back
to bytes yields exactly `specNormalizeBytes bs` — the source with every CRLF
collapsed to LF and a terminator added to an unterminated final line — and
the invocation succeeds. (Stated for sources whose content decodes; invalid
UTF-8 aborts Display instead, cf. C2.) -/
theorem catr_no_options_normalizes_terminators_only (bs : List Nat)
    (name : List Char) (ss : List (List Char))
    (hdec : decodeUnits? (lineUnits bs) = some ss) :
    utf8Encode (Catr.catrMain {} [(name, .ok ⟨bs, false⟩)]).out =
      specNormalizeBytes bs ∧
    (Catr.catrMain {} [(name, .ok ⟨bs, false⟩)]).code = 0 := by
  have hgood : goodSrcs [(name, .ok ⟨bs, false⟩)] = true := by
    simp [goodSrcs, goodSrc, hdec]
  have hrun := catr_run_eq {} [(name, .ok ⟨bs, false⟩)] hgood
  have hexp : Catr.expandArgs {} = ({} : Catr.Args) := rfl
  rw [hexp] at hrun
  have hsl := catr_sourceLines_ok ⟨bs, false⟩ rfl ss hdec
  have hdl : decodedList [(name, .ok ⟨bs, false⟩)] = [ss.map Catr.stripLineEnd] := by
    simp [decodedList, hsl]
  rw [hdl] at hrun
  have hlr : (Catr.linesRun {} false [ss.map Catr.stripLineEnd]).1 =
      ss.map Catr.stripLineEnd := by
    simp [Catr.linesRun, Catr.processSource, sourceLoop_noopt]
  constructor
  · simp only [Catr.catrMain, hrun, hlr]
    rw [List.map_map]
    have := catr_out_normalizes_aux bs.length bs (le_refl _) ss hdec
    simpa [Function.comp] using this
  · simp [Catr.catrMain, hrun]

/-- Witness for C9: the source `"a\r\nb"` (no terminator on the final line)
comes out as `"a\nb\n"`. -/
theorem catr_no_options_normalizes_terminators_only_witness :
    utf8Encode (Catr.catrMain {} [("f".data, .ok ⟨[97, 13, 10, 98], false⟩)]).out =
      specNormalizeBytes [97, 13, 10, 98] ∧
    (Catr.catrMain {} [("f".data, .ok ⟨[97, 13, 10, 98], false⟩)]).code = 0 :=
  catr_no_options_normalizes_terminators_only [97, 13, 10, 98] "f".data
    ["a\r\n".data, "b".data] (by decide)

/-- C10. For fault-free sources, the Head tool's stdout is exactly one block
per successfully opened source, where the block of the source at position
`i` of the argument list is `header total i name ++ body`, and — whenever
more than one file was named — that header is preceded by a blank line
precisely when `i > 0`. The header's blank-line prefix depends only on the
position, never on whether any earlier source produced output, so when the
first source fails to open the first emitted block still begins with a
blank line. -/
theorem head_header_blank_by_position (ar : Headr.Args) (srcs : List NamedSrc)
    (h : goodSrcs srcs = true) :
    (Headr.run ar srcs).1 = headrExpectedOut ar srcs.length 0 srcs ∧
    (∀ (total i : Nat) (nm : List Char), total > 1 →
        Headr.header total i nm =
          (if i > 0 then ['\n'] else []) ++ "==> ".data ++ nm ++ " <==\n".data) := by
  constructor
  · rw [headr_run_eq ar srcs h]
  · intro total i nm htot
    simp [Headr.header, htot]

/-- Witness for C10: the first source fails to open, yet the sole emitted
block (for the source at position 1) is still preceded by a blank line. -/
theorem head_header_blank_by_position_witness :
    ((Headr.run { lines := 1 } [("bad".data, .error "no".data),
        ("g".data, .ok ⟨[120, 10], false⟩)]).1 =
      headrExpectedOut { lines := 1 } 2 0
        [("bad".data, .error "no".data), ("g".data, .ok ⟨[120, 10], false⟩)] ∧
     (∀ (total i : Nat) (nm : List Char), total > 1 →
        Headr.header total i nm =
          (if i > 0 then ['\n'] else []) ++ "==> ".data ++ nm ++ " <==\n".data)) ∧
    (Headr.run { lines := 1 } [("bad".data, .error "no".data),
        ("g".data, .ok ⟨[120, 10], false⟩)]).1 = "\n==> g <==\nx\n".data :=
  ⟨head_header_blank_by_position { lines := 1 } _ (by decide), by decide⟩

end CmdLineRust
